import Mathlib

/-!
Verification development for the ipcIO messaging fabric (src/ipcio.js).

The JavaScript source is shallowly embedded: JSON values are modelled by the
inductive `Json` (numbers are restricted to integers, which covers every
number the fabric itself produces; see the comment at `Json`), the builtin
`JSON.stringify` / `JSON.parse` pair is modelled by the executable
`Json.stringify` / `jsonParse` below, and the fabric's own functions
(`parseMsg`, `prepareMsg`, the server and client event handlers, the send
queues and the handler registry) are translated function by function.
-/

/-- Model of a JavaScript JSON value.  Numbers are modelled as integers:
every number appearing in the fabric itself (the error codes 101, 102, 201)
is an integer, and the codec treats numeric payloads uniformly.  Object
fields are kept as an association list in insertion order, which is the
order `JSON.stringify` serializes them and `Object.keys` reports them. -/
inductive Json where
  | null : Json
  | bool (b : Bool) : Json
  | num (n : Int) : Json
  | str (s : String) : Json
  | arr (elems : List Json) : Json
  | obj (fields : List (String × Json)) : Json
deriving Repr

mutual

def Json.beq : Json → Json → Bool
  | .null, .null => true
  | .bool a, .bool b => a == b
  | .num a, .num b => a == b
  | .str a, .str b => a == b
  | .arr a, .arr b => Json.beqList a b
  | .obj a, .obj b => Json.beqFields a b
  | _, _ => false

def Json.beqList : List Json → List Json → Bool
  | [], [] => true
  | a :: as, b :: bs => Json.beq a b && Json.beqList as bs
  | _, _ => false

def Json.beqFields : List (String × Json) → List (String × Json) → Bool
  | [], [] => true
  | (ka, va) :: as, (kb, vb) :: bs => ka == kb && Json.beq va vb && Json.beqFields as bs
  | _, _ => false

end

mutual

theorem Json.beq_refl : (v : Json) → Json.beq v v = true
  | .null => rfl
  | .bool b => by simp [Json.beq]
  | .num n => by simp [Json.beq]
  | .str s => by simp [Json.beq]
  | .arr es => by simp [Json.beq, Json.beqList_refl es]
  | .obj fs => by simp [Json.beq, Json.beqFields_refl fs]

theorem Json.beqList_refl : (es : List Json) → Json.beqList es es = true
  | [] => rfl
  | e :: es => by simp [Json.beqList, Json.beq_refl e, Json.beqList_refl es]

theorem Json.beqFields_refl : (fs : List (String × Json)) → Json.beqFields fs fs = true
  | [] => rfl
  | (k, v) :: fs => by simp [Json.beqFields, Json.beq_refl v, Json.beqFields_refl fs]

end

mutual

theorem Json.eq_of_beq : {a b : Json} → Json.beq a b = true → a = b
  | .null, .null, _ => rfl
  | .bool a, .bool b, h => by simp [Json.beq] at h; simp [h]
  | .num a, .num b, h => by simp [Json.beq] at h; simp [h]
  | .str a, .str b, h => by simp [Json.beq] at h; simp [h]
  | .arr a, .arr b, h => by
      simp only [Json.beq] at h
      simp [Json.eqList_of_beq h]
  | .obj a, .obj b, h => by
      simp only [Json.beq] at h
      simp [Json.eqFields_of_beq h]
  | .null, .bool _, h => by simp [Json.beq] at h
  | .null, .num _, h => by simp [Json.beq] at h
  | .null, .str _, h => by simp [Json.beq] at h
  | .null, .arr _, h => by simp [Json.beq] at h
  | .null, .obj _, h => by simp [Json.beq] at h
  | .bool _, .null, h => by simp [Json.beq] at h
  | .bool _, .num _, h => by simp [Json.beq] at h
  | .bool _, .str _, h => by simp [Json.beq] at h
  | .bool _, .arr _, h => by simp [Json.beq] at h
  | .bool _, .obj _, h => by simp [Json.beq] at h
  | .num _, .null, h => by simp [Json.beq] at h
  | .num _, .bool _, h => by simp [Json.beq] at h
  | .num _, .str _, h => by simp [Json.beq] at h
  | .num _, .arr _, h => by simp [Json.beq] at h
  | .num _, .obj _, h => by simp [Json.beq] at h
  | .str _, .null, h => by simp [Json.beq] at h
  | .str _, .bool _, h => by simp [Json.beq] at h
  | .str _, .num _, h => by simp [Json.beq] at h
  | .str _, .arr _, h => by simp [Json.beq] at h
  | .str _, .obj _, h => by simp [Json.beq] at h
  | .arr _, .null, h => by simp [Json.beq] at h
  | .arr _, .bool _, h => by simp [Json.beq] at h
  | .arr _, .num _, h => by simp [Json.beq] at h
  | .arr _, .str _, h => by simp [Json.beq] at h
  | .arr _, .obj _, h => by simp [Json.beq] at h
  | .obj _, .null, h => by simp [Json.beq] at h
  | .obj _, .bool _, h => by simp [Json.beq] at h
  | .obj _, .num _, h => by simp [Json.beq] at h
  | .obj _, .str _, h => by simp [Json.beq] at h
  | .obj _, .arr _, h => by simp [Json.beq] at h

theorem Json.eqList_of_beq : {a b : List Json} → Json.beqList a b = true → a = b
  | [], [], _ => rfl
  | x :: xs, y :: ys, h => by
      simp only [Json.beqList, Bool.and_eq_true] at h
      simp [Json.eq_of_beq h.1, Json.eqList_of_beq h.2]
  | [], _ :: _, h => by simp [Json.beqList] at h
  | _ :: _, [], h => by simp [Json.beqList] at h

theorem Json.eqFields_of_beq : {a b : List (String × Json)} → Json.beqFields a b = true → a = b
  | [], [], _ => rfl
  | (kx, vx) :: xs, (ky, vy) :: ys, h => by
      simp only [Json.beqFields, Bool.and_eq_true, beq_iff_eq] at h
      simp [h.1.1, Json.eq_of_beq h.1.2, Json.eqFields_of_beq h.2]
  | [], _ :: _, h => by simp [Json.beqFields] at h
  | _ :: _, [], h => by simp [Json.beqFields] at h

end

instance : DecidableEq Json := fun a b =>
  if h : Json.beq a b = true then
    .isTrue (Json.eq_of_beq h)
  else
    .isFalse (fun he => h (he ▸ Json.beq_refl a))

/-- Decimal digit character for a digit value below ten. -/
def digitChar (n : Nat) : Char := Char.ofNat (48 + n)

/-- Decimal digits of a natural number, least significant first (the
recursion is bounded by a fuel argument so the definition is structural;
`natRevDigits_eq` below recovers the direct recurrence). -/
def natRevDigitsF : Nat → Nat → List Char
  | 0, _ => []
  | fuel + 1, n =>
    if n < 10 then [digitChar n]
    else digitChar (n % 10) :: natRevDigitsF fuel (n / 10)

def natRevDigits (n : Nat) : List Char := natRevDigitsF (n + 1) n

theorem natRevDigitsF_irrel : ∀ (f1 f2 n : Nat), n < f1 → n < f2 →
    natRevDigitsF f1 n = natRevDigitsF f2 n := by
  intro f1
  induction f1 with
  | zero => intro f2 n h1 _; exact absurd h1 (Nat.not_lt_zero n)
  | succ g ih =>
    intro f2 n h1 h2
    cases f2 with
    | zero => omega
    | succ h =>
      unfold natRevDigitsF
      by_cases h10 : n < 10
      · rw [if_pos h10, if_pos h10]
      · rw [if_neg h10, if_neg h10]
        have hd : n / 10 < n := Nat.div_lt_self (by omega) (by omega)
        rw [ih h (n / 10) (by omega) (by omega)]

theorem natRevDigits_eq (n : Nat) : natRevDigits n =
    if n < 10 then [digitChar n] else digitChar (n % 10) :: natRevDigits (n / 10) := by
  show natRevDigitsF (n + 1) n = _
  unfold natRevDigitsF
  by_cases h10 : n < 10
  · rw [if_pos h10, if_pos h10]
  · rw [if_neg h10, if_neg h10]
    have hd : n / 10 < n := Nat.div_lt_self (by omega) (by omega)
    rw [natRevDigitsF_irrel n (n / 10 + 1) (n / 10) (by omega) (by omega)]
    rfl

/-- Decimal representation of a natural number, most significant digit first. -/
def natReprChars (n : Nat) : List Char := (natRevDigits n).reverse

/-- Decimal representation of an integer, as `JSON.stringify` prints it. -/
def intReprChars (i : Int) : List Char :=
  if i < 0 then '-' :: natReprChars i.natAbs else natReprChars i.toNat

/-- Lowercase hexadecimal digit character for a value below sixteen. -/
def hexDigitChar (n : Nat) : Char :=
  if n < 10 then Char.ofNat (48 + n) else Char.ofNat (87 + n)

/-- Escape of a single character inside a JSON string literal, following
the `QuoteJSONString` algorithm used by `JSON.stringify`: quote, backslash
and the named control characters get two-character escapes, the remaining
control characters get a `\u00xx` escape, everything else is emitted as is. -/
def escapeChar (c : Char) : List Char :=
  if c = '"' then ['\\', '"']
  else if c = '\\' then ['\\', '\\']
  else if c = Char.ofNat 8 then ['\\', 'b']
  else if c = Char.ofNat 9 then ['\\', 't']
  else if c = Char.ofNat 10 then ['\\', 'n']
  else if c = Char.ofNat 12 then ['\\', 'f']
  else if c = Char.ofNat 13 then ['\\', 'r']
  else if c.toNat < 32 then
    ['\\', 'u', '0', '0', hexDigitChar (c.toNat / 16), hexDigitChar (c.toNat % 16)]
  else [c]

/-- Serialization of a JSON string literal, quotes included. -/
def stringChars (s : String) : List Char :=
  '"' :: s.data.flatMap escapeChar ++ ['"']

mutual

/-- Model of `JSON.stringify` on `Json`, producing the character list of the
compact serialization (no whitespace), with object fields in order. -/
def Json.stringifyChars : Json → List Char
  | .null => "null".data
  | .bool true => "true".data
  | .bool false => "false".data
  | .num i => intReprChars i
  | .str s => stringChars s
  | .arr es => '[' :: Json.arrBodyChars es ++ [']']
  | .obj fs => '{' :: Json.objBodyChars fs ++ ['}']

def Json.arrBodyChars : List Json → List Char
  | [] => []
  | [v] => Json.stringifyChars v
  | v :: vs => Json.stringifyChars v ++ ',' :: Json.arrBodyChars vs

def Json.objBodyChars : List (String × Json) → List Char
  | [] => []
  | [(k, v)] => stringChars k ++ ':' :: Json.stringifyChars v
  | (k, v) :: fs => stringChars k ++ ':' :: Json.stringifyChars v ++ ',' :: Json.objBodyChars fs

end

/-- Model of `JSON.stringify` returning a `String`. -/
def Json.stringify (v : Json) : String := String.mk v.stringifyChars

/-- JSON insignificant whitespace. -/
def isJsonWs (c : Char) : Bool :=
  c = ' ' || c = Char.ofNat 9 || c = Char.ofNat 10 || c = Char.ofNat 13

def skipWs (cs : List Char) : List Char := cs.dropWhile isJsonWs

def isDigitChar (c : Char) : Bool := 48 ≤ c.toNat && c.toNat ≤ 57

/-- Numeric value of a hexadecimal digit character, if it is one. -/
def hexVal (c : Char) : Option Nat :=
  if 48 ≤ c.toNat ∧ c.toNat ≤ 57 then some (c.toNat - 48)
  else if 97 ≤ c.toNat ∧ c.toNat ≤ 102 then some (c.toNat - 87)
  else if 65 ≤ c.toNat ∧ c.toNat ≤ 70 then some (c.toNat - 55)
  else none

/-- Character a `\uxxxx` escape decodes to, if the code is a valid scalar
value. -/
def charOfCode (n : Nat) : Option Char :=
  if h : n.isValidChar then
    some ⟨UInt32.ofNatCore n (by
      rcases h with h | h
      · exact Nat.lt_trans h (by decide)
      · exact Nat.lt_trans h.2 (by decide)), h⟩
  else none

/-- Decoding of the single-character backslash escapes of a JSON string
literal (every escape except `\u`). -/
def escCharSimple (e : Char) : Option Char :=
  if e = '"' then some '"'
  else if e = '\\' then some '\\'
  else if e = '/' then some '/'
  else if e = 'b' then some (Char.ofNat 8)
  else if e = 'f' then some (Char.ofNat 12)
  else if e = 'n' then some (Char.ofNat 10)
  else if e = 'r' then some (Char.ofNat 13)
  else if e = 't' then some (Char.ofNat 9)
  else none

/-- Body of a JSON string literal: consumes characters up to the closing
quote, decoding escapes, rejecting raw control characters exactly as
`JSON.parse` does.  Returns the decoded characters and the rest of the
input (after the closing quote). -/
def readStringChars : List Char → Option (List Char × List Char)
  | [] => none
  | c :: rest =>
    if c = '"' then some ([], rest)
    else if c = '\\' then
      match rest with
      | [] => none
      | e :: r =>
        if e = 'u' then
          match r with
          | h1 :: h2 :: h3 :: h4 :: r2 =>
            match hexVal h1, hexVal h2, hexVal h3, hexVal h4 with
            | some a, some b, some c2, some d =>
              match charOfCode (((a * 16 + b) * 16 + c2) * 16 + d) with
              | some ch => (readStringChars r2).map (fun p => (ch :: p.1, p.2))
              | none => none
            | _, _, _, _ => none
          | _ => none
        else
          match escCharSimple e with
          | some ch => (readStringChars r).map (fun p => (ch :: p.1, p.2))
          | none => none
    else if c.toNat < 32 then none
    else (readStringChars rest).map (fun p => (c :: p.1, p.2))

/-- Digit-run folding used by the number parser. -/
def digitsToNat (ds : List Char) : Nat :=
  ds.foldl (fun a c => 10 * a + (c.toNat - 48)) 0

/-- Reads a JSON natural-number literal (one or more digits, no redundant
leading zero) from the front of the input. -/
def readNat (cs : List Char) : Option (Nat × List Char) :=
  match cs.takeWhile isDigitChar, cs.dropWhile isDigitChar with
  | [], _ => none
  | [d], rest => some (d.toNat - 48, rest)
  | d :: e :: t, rest => if d = '0' then none else some (digitsToNat (d :: e :: t), rest)

/-- Expects the given literal characters at the front of the input. -/
def expectLit : List Char → List Char → Option (List Char)
  | [], cs => some cs
  | l :: ls, c :: cs => if c = l then expectLit ls cs else none
  | _ :: _, [] => none

mutual

/-- Model of `JSON.parse` value parsing (recursive descent, fuel-bounded).
Restriction with respect to the builtin: number literals with a fraction or
an exponent are rejected (the `Json` model has integer numbers only); the
fabric never emits such literals. -/
def parseValue : Nat → List Char → Option (Json × List Char)
  | 0, _ => none
  | fuel + 1, cs =>
    match cs with
    | [] => none
    | c :: rest =>
      if c = 'n' then (expectLit ['u', 'l', 'l'] rest).map (fun r => (.null, r))
      else if c = 't' then (expectLit ['r', 'u', 'e'] rest).map (fun r => (.bool true, r))
      else if c = 'f' then (expectLit ['a', 'l', 's', 'e'] rest).map (fun r => (.bool false, r))
      else if c = '"' then (readStringChars rest).map (fun p => (.str (String.mk p.1), p.2))
      else if c = '[' then
        match skipWs rest with
        | [] => none
        | c2 :: r2 =>
          if c2 = ']' then some (.arr [], r2)
          else (parseItems fuel (c2 :: r2)).map (fun p => (.arr p.1, p.2))
      else if c = '{' then
        match skipWs rest with
        | [] => none
        | c2 :: r2 =>
          if c2 = '}' then some (.obj [], r2)
          else (parseFields fuel (c2 :: r2)).map (fun p => (.obj p.1, p.2))
      else if c = '-' then (readNat rest).map (fun p => (.num (-(p.1 : Int)), p.2))
      else if isDigitChar c then (readNat (c :: rest)).map (fun p => (.num (p.1 : Int), p.2))
      else none

/-- Comma-separated array items, finishing at the closing bracket. -/
def parseItems : Nat → List Char → Option (List Json × List Char)
  | 0, _ => none
  | fuel + 1, cs =>
    match parseValue fuel (skipWs cs) with
    | none => none
    | some (v, r) =>
      match skipWs r with
      | [] => none
      | c :: r2 =>
        if c = ',' then (parseItems fuel r2).map (fun p => (v :: p.1, p.2))
        else if c = ']' then some ([v], r2)
        else none

/-- Comma-separated object fields, finishing at the closing brace. -/
def parseFields : Nat → List Char → Option (List (String × Json) × List Char)
  | 0, _ => none
  | fuel + 1, cs =>
    match skipWs cs with
    | [] => none
    | c :: kr =>
      if c = '"' then
        match readStringChars kr with
        | none => none
        | some (k, r1) =>
          match skipWs r1 with
          | [] => none
          | c2 :: r2 =>
            if c2 = ':' then
              match parseValue fuel (skipWs r2) with
              | none => none
              | some (v, r3) =>
                match skipWs r3 with
                | [] => none
                | c3 :: r4 =>
                  if c3 = ',' then
                    (parseFields fuel r4).map (fun p => ((String.mk k, v) :: p.1, p.2))
                  else if c3 = '}' then some ([(String.mk k, v)], r4)
                  else none
            else none
      else none

end

/-- Model of `JSON.parse`: parses the whole input (surrounding whitespace
allowed), or fails. -/
def jsonParse (s : String) : Option Json :=
  match parseValue (s.data.length + 1) (skipWs s.data) with
  | some (v, rest) => if skipWs rest = [] then some v else none
  | none => none

mutual

/-- Model of JavaScript string coercion `String(x)` / `x.toString()` on a
JSON value: strings unchanged, numbers in decimal, booleans as keywords,
null as `"null"` (property-key coercion; the fabric only calls `.toString()`
behind a null guard), arrays joined by commas with null elements empty, and
plain objects as `"[object Object]"`. -/
def jsToString : Json → String
  | .null => "null"
  | .bool b => if b then "true" else "false"
  | .num i => String.mk (intReprChars i)
  | .str s => s
  | .arr es => jsArrayJoin es
  | .obj _ => "[object Object]"

def jsArrayJoin : List Json → String
  | [] => ""
  | v :: vs =>
    jsElemString v ++ (match vs with
      | [] => ""
      | _ :: _ => "," ++ jsArrayJoin vs)

/-- Coercion of one array element inside `Array.prototype.toString`: null
elements become the empty string, everything else its string coercion (the
non-null cases repeat `jsToString` so the mutual recursion is structural). -/
def jsElemString : Json → String
  | .null => ""
  | .bool b => if b then "true" else "false"
  | .num i => String.mk (intReprChars i)
  | .str s => s
  | .arr es => jsArrayJoin es
  | .obj _ => "[object Object]"

end

/-- The coercion `prepareMsg` applies to its `id` and `command` arguments:
`null` (or `undefined`) stays null, anything else becomes its string
coercion. -/
def toStringOrNull (v : Json) : Json :=
  if v = .null then .null else .str (jsToString v)

/-- Model of `prepareMsg` called with one argument (`data`). -/
def prepareMsg1 (data : Json) : String :=
  Json.stringify (.obj [("id", .null), ("command", .null), ("data", data), ("delivery", .null)])

/-- Model of `prepareMsg` called with two arguments (`command, data`). -/
def prepareMsg2 (command data : Json) : String :=
  Json.stringify (.obj [("id", .null), ("command", toStringOrNull command),
    ("data", data), ("delivery", .null)])

/-- Model of `prepareMsg` called with three arguments (`id, command, data`). -/
def prepareMsg3 (id command data : Json) : String :=
  Json.stringify (.obj [("id", toStringOrNull id), ("command", toStringOrNull command),
    ("data", data), ("delivery", .null)])

/-- Model of `prepareMsg` called with four arguments
(`id, command, data, delivery`).  Note that the source passes `arguments[3]`
through without the `toString` coercion it applies to `id` and `command`. -/
def prepareMsg4 (id command data delivery : Json) : String :=
  Json.stringify (.obj [("id", toStringOrNull id), ("command", toStringOrNull command),
    ("data", data), ("delivery", delivery)])

/-- The regex replace `message.replace(/\r\n|\n|\r/gm, "")` in `parseMsg`:
removes every carriage return and line feed. -/
def stripCRLF (cs : List Char) : List Char :=
  cs.filter (fun c => c ≠ Char.ofNat 13 ∧ c ≠ Char.ofNat 10)

/-- The regex replace `.replace(/}{/gm, "},{")` in `parseMsg`: every
(left-to-right, non-overlapping) occurrence of the two characters `}{` gets
a comma spliced in between. -/
def splice : List Char → List Char
  | '}' :: '{' :: rest => '}' :: ',' :: '{' :: splice rest
  | c :: rest => c :: splice rest
  | [] => []

/-- The full text transformation of `parseMsg` before `JSON.parse`: strip
CR/LF, splice `}{`, wrap in square brackets. -/
def wrapTransform (message : String) : String :=
  String.mk ('[' :: splice (stripCRLF message.data) ++ [']'])

/-- A parsed message frame as produced by `parseMsg`: the four fields of
the wire format, each a JSON value (`Json.null` when absent). -/
structure Frame where
  id : Json
  command : Json
  data : Json
  delivery : Json
deriving Repr, DecidableEq

/-- JavaScript falsiness on the `Json` model (relevant values: `null`,
`false`, `0`, `""`).  Arrays and objects are always truthy. -/
def jsFalsy : Json → Bool
  | .null => true
  | .bool b => !b
  | .num n => n = 0
  | .str s => s = ""
  | .arr _ => false
  | .obj _ => false

/-- The `entry.field || null` normalization in `parseMsg`. -/
def falsyToNull (v : Json) : Json := if jsFalsy v then .null else v

/-- JavaScript property read `entry[key]` on a parsed JSON value, `null`
standing in for `undefined`.  On objects the last binding wins, matching the
object `JSON.parse` builds when keys repeat; arrays have no such
string-keyed own property. -/
def jsGet (entry : Json) (key : String) : Json :=
  match entry with
  | .obj fs =>
    match (fs.reverse.find? (fun kv => kv.1 = key)) with
    | some kv => kv.2
    | none => .null
  | _ => .null

/-- Normalization of one parsed array element in `parseMsg`: a truthy value
of type "object" (JSON objects and arrays) is projected onto the four frame
fields with falsy fields nulled; anything else (null and non-objects)
becomes a frame carrying the element as `data`. -/
def normalizeEntry (entry : Json) : Frame :=
  match entry with
  | .obj fs =>
    { id := falsyToNull (jsGet (.obj fs) "id"),
      command := falsyToNull (jsGet (.obj fs) "command"),
      data := falsyToNull (jsGet (.obj fs) "data"),
      delivery := falsyToNull (jsGet (.obj fs) "delivery") }
  | .arr es =>
    { id := falsyToNull (jsGet (.arr es) "id"),
      command := falsyToNull (jsGet (.arr es) "command"),
      data := falsyToNull (jsGet (.arr es) "data"),
      delivery := falsyToNull (jsGet (.arr es) "delivery") }
  | e => { id := .null, command := .null, data := e, delivery := .null }

/-- The synthetic error frame `parseMsg` yields on failure, with the given
error data code. -/
def errorFrame (code : Int) : Frame :=
  { id := .null, command := .str "error", data := .num code, delivery := .null }

/-- Model of `parseMsg`: transform the raw text, `JSON.parse` it, and map
the elements of the resulting array to frames; a parse failure yields the
code-101 frame, a non-array result the code-102 frame. -/
def parseMsg (message : String) : List Frame :=
  match jsonParse (wrapTransform message) with
  | some (.arr entries) => entries.map normalizeEntry
  | some _ => [errorFrame 102]
  | none => [errorFrame 101]

/-! Round-trip correctness of the codec model: `jsonParse` recovers the
value `Json.stringify` serialized.  These lemmas back the codec claims. -/

theorem char_eq_of_toNat_eq {a b : Char} (h : a.toNat = b.toNat) : a = b :=
  Char.ext (UInt32.ext h)

theorem char_ne_of_toNat_ne {a b : Char} (h : a.toNat ≠ b.toNat) : a ≠ b :=
  fun he => h (congrArg Char.toNat he)

theorem toNat_ofNat_valid (n : Nat) (h : n < 55296) : (Char.ofNat n).toNat = n := by
  simp [Char.ofNat, Nat.isValidChar, h, Char.toNat, Char.ofNatAux, UInt32.toNat, UInt32.ofNatCore]

theorem digitChar_toNat {d : Nat} (h : d < 10) : (digitChar d).toNat = 48 + d := by
  unfold digitChar
  exact toNat_ofNat_valid _ (by omega)

theorem isDigitChar_digitChar {d : Nat} (h : d < 10) : isDigitChar (digitChar d) = true := by
  simp [isDigitChar, digitChar_toNat h]
  omega

theorem digitChar_ne_zero {d : Nat} (h1 : d < 10) (h2 : d ≠ 0) : digitChar d ≠ '0' := by
  apply char_ne_of_toNat_ne
  rw [digitChar_toNat h1]
  show 48 + d ≠ 48
  omega

theorem natRevDigits_ne_nil (n : Nat) : natRevDigits n ≠ [] := by
  rw [natRevDigits_eq]
  split <;> simp

theorem natRevDigits_all_digits (n : Nat) : ∀ c ∈ natRevDigits n, isDigitChar c = true := by
  induction n using Nat.strong_induction_on with
  | _ n ih =>
    rw [natRevDigits_eq]
    split
    · next h => simp [isDigitChar_digitChar h]
    · next h =>
      intro c hc
      rcases List.mem_cons.mp hc with hc | hc
      · subst hc
        exact isDigitChar_digitChar (Nat.mod_lt _ (by omega))
      · exact ih (n / 10) (Nat.div_lt_self (by omega) (by omega)) c hc

/-- Value of a digit list read least-significant first. -/
def ofRev : List Char → Nat
  | [] => 0
  | d :: ds => (d.toNat - 48) + 10 * ofRev ds

theorem ofRev_natRevDigits (n : Nat) : ofRev (natRevDigits n) = n := by
  induction n using Nat.strong_induction_on with
  | _ n ih =>
    rw [natRevDigits_eq]
    split
    · next h => simp [ofRev, digitChar_toNat h]
    · next h =>
      rw [ofRev, ih (n / 10) (Nat.div_lt_self (by omega) (by omega)),
        digitChar_toNat (Nat.mod_lt _ (by omega))]
      omega

theorem digitsToNat_reverse (l : List Char) : digitsToNat l.reverse = ofRev l := by
  induction l with
  | nil => rfl
  | cons d ds ih =>
    rw [List.reverse_cons]
    unfold digitsToNat at ih ⊢
    rw [List.foldl_append, ih]
    simp [ofRev]
    omega

theorem natReprChars_head_ne_zero (n : Nat) (hn : n ≠ 0) :
    ∀ d t, natReprChars n = d :: t → d ≠ '0' := by
  induction n using Nat.strong_induction_on with
  | _ n ih =>
    intro d t hd
    unfold natReprChars at hd
    rw [natRevDigits_eq] at hd
    split at hd
    · next h =>
      rw [List.reverse_singleton] at hd
      cases hd
      exact digitChar_ne_zero h hn
    · next h =>
      rw [List.reverse_cons] at hd
      have hne : (natRevDigits (n / 10)).reverse ≠ [] := by
        simp [natRevDigits_ne_nil]
      rcases List.exists_cons_of_ne_nil hne with ⟨d0, t0, he⟩
      rw [he] at hd
      simp at hd
      rcases hd with ⟨hd0, _⟩
      exact hd0 ▸ ih (n / 10) (Nat.div_lt_self (by omega) (by omega))
        (by omega) d0 t0 he

/-- Head condition a number literal needs on the following input: the next
character, if any, is not a digit. -/
def numDelim : List Char → Prop
  | [] => True
  | c :: _ => isDigitChar c = false

theorem takeWhile_digits_append (ds rest : List Char)
    (hall : ∀ c ∈ ds, isDigitChar c = true) (hrest : numDelim rest) :
    (ds ++ rest).takeWhile isDigitChar = ds ∧ (ds ++ rest).dropWhile isDigitChar = rest := by
  induction ds with
  | nil =>
    simp only [List.nil_append]
    cases rest with
    | nil => simp
    | cons c t =>
      have : isDigitChar c = false := hrest
      simp [List.takeWhile_cons, List.dropWhile_cons, this]
  | cons d ds ih =>
    have hd : isDigitChar d = true := hall d (by simp)
    have := ih (fun c hc => hall c (by simp [hc]))
    simp [List.takeWhile_cons, List.dropWhile_cons, hd, this.1, this.2]

theorem readNat_natRepr (n : Nat) (rest : List Char) (h : numDelim rest) :
    readNat (natReprChars n ++ rest) = some (n, rest) := by
  have hall : ∀ c ∈ natReprChars n, isDigitChar c = true := by
    intro c hc
    exact natRevDigits_all_digits n c (List.mem_reverse.mp hc)
  have htd := takeWhile_digits_append (natReprChars n) rest hall h
  unfold readNat
  rw [htd.1, htd.2]
  by_cases h10 : n < 10
  · have : natReprChars n = [digitChar n] := by
      unfold natReprChars
      rw [natRevDigits_eq, if_pos h10]
      rfl
    rw [this]
    simp [digitChar_toNat h10]
  · have hshape : ∃ a b t, natReprChars n = a :: b :: t := by
      unfold natReprChars
      rw [natRevDigits_eq, if_neg h10, List.reverse_cons]
      rcases List.exists_cons_of_ne_nil
        (by simp [natRevDigits_ne_nil] :
          (natRevDigits (n / 10)).reverse ≠ []) with ⟨d0, t0, he⟩
      rw [he]
      cases t0 with
      | nil => exact ⟨d0, digitChar (n % 10), [], rfl⟩
      | cons x xs => exact ⟨d0, x, xs ++ [digitChar (n % 10)], by simp⟩
    rcases hshape with ⟨a, b, t, he⟩
    rw [he]
    have hne : a ≠ '0' := natReprChars_head_ne_zero n (by omega) a (b :: t) he
    show (if a = '0' then none else some (digitsToNat (a :: b :: t), rest)) = some (n, rest)
    rw [if_neg hne]
    have : digitsToNat (a :: b :: t) = n := by
      rw [← he]
      unfold natReprChars
      rw [digitsToNat_reverse, ofRev_natRevDigits]
    rw [this]

theorem hexVal_hexDigitChar {m : Nat} (h : m < 16) : hexVal (hexDigitChar m) = some m := by
  unfold hexVal hexDigitChar
  by_cases h10 : m < 10
  · rw [if_pos h10, toNat_ofNat_valid _ (by omega)]
    rw [if_pos (by omega)]
    simp
  · rw [if_neg h10, toNat_ofNat_valid _ (by omega)]
    rw [if_neg (by omega), if_pos (by omega)]
    simp

theorem charOfCode_toNat (c : Char) : charOfCode c.toNat = some c := by
  have hv : c.toNat.isValidChar := c.valid
  unfold charOfCode
  rw [dif_pos hv]
  rfl


theorem readStringChars_cons_quote (rest : List Char) :
    readStringChars ('"' :: rest) = some ([], rest) := by
  rw [readStringChars.eq_def]
  simp only [Char.reduceEq, reduceIte]

theorem rsc_esc_simple (e ch : Char) (hne : e ≠ 'u')
    (hesc : escCharSimple e = some ch) (M : List Char) :
    readStringChars ('\\' :: e :: M) = (readStringChars M).map (fun p => (ch :: p.1, p.2)) := by
  rw [readStringChars.eq_def]
  simp only [Char.reduceEq, reduceIte]
  rw [if_neg hne, hesc]

theorem rsc_esc_u (c : Char) (h : c.toNat < 32) (M : List Char) :
    readStringChars ('\\' :: 'u' :: '0' :: '0' :: hexDigitChar (c.toNat / 16) ::
      hexDigitChar (c.toNat % 16) :: M) =
      (readStringChars M).map (fun p => (c :: p.1, p.2)) := by
  rw [readStringChars.eq_def]
  simp only [Char.reduceEq, reduceIte]
  rw [hexVal_hexDigitChar (show c.toNat / 16 < 16 by omega),
    hexVal_hexDigitChar (show c.toNat % 16 < 16 by omega)]
  simp only [show hexVal '0' = some 0 from rfl]
  rw [show ((0 * 16 + 0) * 16 + c.toNat / 16) * 16 + c.toNat % 16 = c.toNat by omega,
    charOfCode_toNat]

theorem rsc_cons_raw (c : Char) (rest : List Char)
    (h1 : c ≠ '"') (h2 : c ≠ '\\') (h3 : ¬c.toNat < 32) :
    readStringChars (c :: rest) = (readStringChars rest).map (fun p => (c :: p.1, p.2)) := by
  rw [readStringChars.eq_def]
  simp only []
  rw [if_neg h1, if_neg h2, if_neg h3]

theorem readStringChars_escape (l rest : List Char) :
    readStringChars (l.flatMap escapeChar ++ '"' :: rest) = some (l, rest) := by
  induction l with
  | nil => simpa using readStringChars_cons_quote rest
  | cons c t ih =>
    rw [List.flatMap_cons, List.append_assoc]
    unfold escapeChar
    by_cases h1 : c = '"'
    · subst h1
      rw [if_pos rfl]
      show readStringChars ('\\' :: '"' :: (t.flatMap escapeChar ++ '"' :: rest)) = _
      rw [rsc_esc_simple '"' '"' (by decide) rfl, ih]
      rfl
    · rw [if_neg h1]
      by_cases h2 : c = '\\'
      · subst h2
        rw [if_pos rfl]
        show readStringChars ('\\' :: '\\' :: (t.flatMap escapeChar ++ '"' :: rest)) = _
        rw [rsc_esc_simple '\\' '\\' (by decide) rfl, ih]
        rfl
      · rw [if_neg h2]
        by_cases h3 : c = Char.ofNat 8
        · subst h3
          rw [if_pos rfl]
          show readStringChars ('\\' :: 'b' :: (t.flatMap escapeChar ++ '"' :: rest)) = _
          rw [rsc_esc_simple 'b' (Char.ofNat 8) (by decide) rfl, ih]
          rfl
        · rw [if_neg h3]
          by_cases h4 : c = Char.ofNat 9
          · subst h4
            rw [if_pos rfl]
            show readStringChars ('\\' :: 't' :: (t.flatMap escapeChar ++ '"' :: rest)) = _
            rw [rsc_esc_simple 't' (Char.ofNat 9) (by decide) rfl, ih]
            rfl
          · rw [if_neg h4]
            by_cases h5 : c = Char.ofNat 10
            · subst h5
              rw [if_pos rfl]
              show readStringChars ('\\' :: 'n' :: (t.flatMap escapeChar ++ '"' :: rest)) = _
              rw [rsc_esc_simple 'n' (Char.ofNat 10) (by decide) rfl, ih]
              rfl
            · rw [if_neg h5]
              by_cases h6 : c = Char.ofNat 12
              · subst h6
                rw [if_pos rfl]
                show readStringChars ('\\' :: 'f' :: (t.flatMap escapeChar ++ '"' :: rest)) = _
                rw [rsc_esc_simple 'f' (Char.ofNat 12) (by decide) rfl, ih]
                rfl
              · rw [if_neg h6]
                by_cases h7 : c = Char.ofNat 13
                · subst h7
                  rw [if_pos rfl]
                  show readStringChars ('\\' :: 'r' :: (t.flatMap escapeChar ++ '"' :: rest)) = _
                  rw [rsc_esc_simple 'r' (Char.ofNat 13) (by decide) rfl, ih]
                  rfl
                · rw [if_neg h7]
                  by_cases h8 : c.toNat < 32
                  · rw [if_pos h8]
                    show readStringChars ('\\' :: 'u' :: '0' :: '0' ::
                      hexDigitChar (c.toNat / 16) :: hexDigitChar (c.toNat % 16) ::
                      (t.flatMap escapeChar ++ '"' :: rest)) = _
                    rw [rsc_esc_u c h8, ih]
                    rfl
                  · rw [if_neg h8]
                    show readStringChars (c :: (t.flatMap escapeChar ++ '"' :: rest)) = _
                    rw [rsc_cons_raw c _ h1 h2 h8, ih]
                    rfl

theorem isDigitChar_bounds {c : Char} (h : isDigitChar c = true) :
    48 ≤ c.toNat ∧ c.toNat ≤ 57 := by
  unfold isDigitChar at h
  simpa using h

theorem digit_not_special {c : Char} (h : isDigitChar c = true) :
    isJsonWs c = false ∧ c ≠ ']' ∧ c ≠ '}' ∧ c ≠ ',' ∧ c ≠ 'n' ∧ c ≠ 't' ∧ c ≠ 'f' ∧
    c ≠ '"' ∧ c ≠ '[' ∧ c ≠ '{' ∧ c ≠ '-' := by
  have hb := isDigitChar_bounds h
  refine ⟨?_, char_ne_of_toNat_ne (show c.toNat ≠ 93 by omega),
    char_ne_of_toNat_ne (show c.toNat ≠ 125 by omega),
    char_ne_of_toNat_ne (show c.toNat ≠ 44 by omega),
    char_ne_of_toNat_ne (show c.toNat ≠ 110 by omega),
    char_ne_of_toNat_ne (show c.toNat ≠ 116 by omega),
    char_ne_of_toNat_ne (show c.toNat ≠ 102 by omega),
    char_ne_of_toNat_ne (show c.toNat ≠ 34 by omega),
    char_ne_of_toNat_ne (show c.toNat ≠ 91 by omega),
    char_ne_of_toNat_ne (show c.toNat ≠ 123 by omega),
    char_ne_of_toNat_ne (show c.toNat ≠ 45 by omega)⟩
  unfold isJsonWs
  simp only [Bool.or_eq_false_iff, decide_eq_false_iff_not]
  exact ⟨⟨⟨char_ne_of_toNat_ne (show c.toNat ≠ 32 by omega),
    char_ne_of_toNat_ne (show c.toNat ≠ 9 by omega)⟩,
    char_ne_of_toNat_ne (show c.toNat ≠ 10 by omega)⟩,
    char_ne_of_toNat_ne (show c.toNat ≠ 13 by omega)⟩

theorem natReprChars_ne_nil (n : Nat) : natReprChars n ≠ [] := by
  unfold natReprChars
  simp [natRevDigits_ne_nil]

/-- Condition on the head character of a serialized value: not whitespace
and not a closing delimiter, so the parser neither skips it nor mistakes it
for the end of an enclosing array or object. -/
def headOk (cs : List Char) : Prop :=
  ∃ c t, cs = c :: t ∧ isJsonWs c = false ∧ c ≠ ']' ∧ c ≠ '}' ∧ c ≠ ','

theorem stringify_headOk (v : Json) : headOk v.stringifyChars := by
  cases v with
  | null => exact ⟨'n', _, rfl, by decide, by decide, by decide, by decide⟩
  | bool b =>
    cases b with
    | true => exact ⟨'t', _, rfl, by decide, by decide, by decide, by decide⟩
    | false => exact ⟨'f', _, rfl, by decide, by decide, by decide, by decide⟩
  | num i =>
    show headOk (intReprChars i)
    unfold intReprChars
    by_cases hi : i < 0
    · rw [if_pos hi]
      exact ⟨'-', _, rfl, by decide, by decide, by decide, by decide⟩
    · rw [if_neg hi]
      rcases List.exists_cons_of_ne_nil (natReprChars_ne_nil i.toNat) with ⟨c, t, he⟩
      have hd : isDigitChar c = true := by
        have : c ∈ natReprChars i.toNat := by rw [he]; simp
        exact natRevDigits_all_digits i.toNat c (List.mem_reverse.mp this)
      have hp := digit_not_special hd
      exact ⟨c, t, he, hp.1, hp.2.1, hp.2.2.1, hp.2.2.2.1⟩
  | str s => exact ⟨'"', _, rfl, by decide, by decide, by decide, by decide⟩
  | arr es => exact ⟨'[', _, rfl, by decide, by decide, by decide, by decide⟩
  | obj fs => exact ⟨'{', _, rfl, by decide, by decide, by decide, by decide⟩

theorem skipWs_cons_of_not_ws {c : Char} (h : isJsonWs c = false) (t : List Char) :
    skipWs (c :: t) = c :: t := by
  simp [skipWs, List.dropWhile_cons, h]

theorem skipWs_stringify_append (v : Json) (r : List Char) :
    skipWs (v.stringifyChars ++ r) = v.stringifyChars ++ r := by
  rcases stringify_headOk v with ⟨c, t, he, hws, _⟩
  rw [he, List.cons_append, skipWs_cons_of_not_ws hws]

mutual

/-- Fuel adequate for parsing the serialization of a value. -/
def jsonFuel : Json → Nat
  | .null => 1
  | .bool _ => 1
  | .num _ => 1
  | .str _ => 1
  | .arr es => 1 + itemsFuel es
  | .obj fs => 1 + fieldsFuel fs

def itemsFuel : List Json → Nat
  | [] => 0
  | v :: vs => 1 + jsonFuel v + itemsFuel vs

def fieldsFuel : List (String × Json) → Nat
  | [] => 0
  | (_, v) :: fs => 1 + jsonFuel v + fieldsFuel fs

end

theorem jsonFuel_pos (v : Json) : 1 ≤ jsonFuel v := by
  cases v <;> simp [jsonFuel]

theorem arrBodyChars_singleton (v : Json) : Json.arrBodyChars [v] = v.stringifyChars := rfl

theorem arrBodyChars_cons2 (v w : Json) (vs : List Json) :
    Json.arrBodyChars (v :: w :: vs) = v.stringifyChars ++ ',' :: Json.arrBodyChars (w :: vs) := rfl

theorem objBodyChars_singleton (k : String) (v : Json) :
    Json.objBodyChars [(k, v)] = stringChars k ++ ':' :: v.stringifyChars := rfl

theorem objBodyChars_cons2 (k : String) (v : Json) (f2 : String × Json) (fs : List (String × Json)) :
    Json.objBodyChars ((k, v) :: f2 :: fs) =
      stringChars k ++ ':' :: v.stringifyChars ++ ',' :: Json.objBodyChars (f2 :: fs) := rfl

mutual

theorem jsonFuel_le_length : ∀ (v : Json), jsonFuel v ≤ v.stringifyChars.length
  | .null => by simp [jsonFuel, Json.stringifyChars]
  | .bool b => by cases b <;> simp [jsonFuel, Json.stringifyChars]
  | .num i => by
    have := natReprChars_ne_nil i.natAbs
    have := natReprChars_ne_nil i.toNat
    simp only [jsonFuel, Json.stringifyChars, intReprChars]
    split
    · simp
    · rcases List.exists_cons_of_ne_nil (natReprChars_ne_nil i.toNat) with ⟨c, t, he⟩
      rw [he]
      simp
  | .str s => by simp [jsonFuel, Json.stringifyChars, stringChars]
  | .arr es => by
    have h := itemsFuel_le_length es
    simp only [jsonFuel, Json.stringifyChars]
    simp only [List.length_cons, List.length_append]
    omega
  | .obj fs => by
    have h := fieldsFuel_le_length fs
    simp only [jsonFuel, Json.stringifyChars]
    simp only [List.length_cons, List.length_append]
    omega

theorem itemsFuel_le_length : ∀ (es : List Json), itemsFuel es ≤ 1 + (Json.arrBodyChars es).length
  | [] => by simp [itemsFuel]
  | [v] => by
    have h := jsonFuel_le_length v
    simp only [itemsFuel, arrBodyChars_singleton]
    omega
  | v :: v2 :: vs => by
    have h1 := jsonFuel_le_length v
    have h2 := itemsFuel_le_length (v2 :: vs)
    have hd : itemsFuel (v2 :: vs) = 1 + jsonFuel v2 + itemsFuel vs := rfl
    simp only [itemsFuel, arrBodyChars_cons2, List.length_append, List.length_cons]
    omega

theorem fieldsFuel_le_length : ∀ (fs : List (String × Json)),
    fieldsFuel fs ≤ 1 + (Json.objBodyChars fs).length
  | [] => by simp [fieldsFuel]
  | [(k, v)] => by
    have h := jsonFuel_le_length v
    simp only [fieldsFuel, objBodyChars_singleton, List.length_append, List.length_cons]
    omega
  | (k, v) :: (k2, v2) :: fs => by
    have h1 := jsonFuel_le_length v
    have h2 := fieldsFuel_le_length ((k2, v2) :: fs)
    have hd : fieldsFuel ((k2, v2) :: fs) = 1 + jsonFuel v2 + fieldsFuel fs := rfl
    simp only [fieldsFuel, objBodyChars_cons2, List.length_append, List.length_cons]
    omega

end

theorem parseValue_null (fuel : Nat) (rest : List Char) :
    parseValue (fuel + 1) ('n' :: rest) =
      (expectLit ['u', 'l', 'l'] rest).map (fun r => (.null, r)) := rfl

theorem parseValue_true (fuel : Nat) (rest : List Char) :
    parseValue (fuel + 1) ('t' :: rest) =
      (expectLit ['r', 'u', 'e'] rest).map (fun r => (.bool true, r)) := rfl

theorem parseValue_false (fuel : Nat) (rest : List Char) :
    parseValue (fuel + 1) ('f' :: rest) =
      (expectLit ['a', 'l', 's', 'e'] rest).map (fun r => (.bool false, r)) := rfl

theorem parseValue_quote (fuel : Nat) (rest : List Char) :
    parseValue (fuel + 1) ('"' :: rest) =
      (readStringChars rest).map (fun p => (.str (String.mk p.1), p.2)) := rfl

theorem parseValue_minus (fuel : Nat) (rest : List Char) :
    parseValue (fuel + 1) ('-' :: rest) =
      (readNat rest).map (fun p => (.num (-(p.1 : Int)), p.2)) := rfl

theorem parseValue_digit (fuel : Nat) (c : Char) (rest : List Char) (h : isDigitChar c = true) :
    parseValue (fuel + 1) (c :: rest) =
      (readNat (c :: rest)).map (fun p => (.num (p.1 : Int), p.2)) := by
  obtain ⟨hws, h1, h2, h3, hn, ht, hf, hq, hlb, hob, hm⟩ := digit_not_special h
  rw [parseValue]
  rw [if_neg hn, if_neg ht, if_neg hf, if_neg hq, if_neg hlb, if_neg hob, if_neg hm, if_pos h]

theorem parseValue_lbracket_close (fuel : Nat) (r2 : List Char) :
    parseValue (fuel + 1) ('[' :: ']' :: r2) = some (.arr [], r2) := rfl

theorem parseValue_lbracket_open (fuel : Nat) (c2 : Char) (r2 : List Char)
    (hws : isJsonWs c2 = false) (hne : c2 ≠ ']') :
    parseValue (fuel + 1) ('[' :: c2 :: r2) =
      (parseItems fuel (c2 :: r2)).map (fun p => (.arr p.1, p.2)) := by
  rw [parseValue]
  rw [skipWs_cons_of_not_ws hws]
  simp only [Char.reduceEq, reduceIte]
  rw [if_neg hne]

theorem parseValue_lbrace_close (fuel : Nat) (r2 : List Char) :
    parseValue (fuel + 1) ('{' :: '}' :: r2) = some (.obj [], r2) := rfl

theorem parseValue_lbrace_open (fuel : Nat) (c2 : Char) (r2 : List Char)
    (hws : isJsonWs c2 = false) (hne : c2 ≠ '}') :
    parseValue (fuel + 1) ('{' :: c2 :: r2) =
      (parseFields fuel (c2 :: r2)).map (fun p => (.obj p.1, p.2)) := by
  rw [parseValue]
  rw [skipWs_cons_of_not_ws hws]
  simp only [Char.reduceEq, reduceIte]
  rw [if_neg hne]

theorem parseItems_last (fuel : Nat) (cs : List Char) (v : Json) (r2 : List Char)
    (hv : parseValue fuel (skipWs cs) = some (v, ']' :: r2)) :
    parseItems (fuel + 1) cs = some ([v], r2) := by
  rw [parseItems, hv]
  simp only []
  rw [skipWs_cons_of_not_ws (by decide)]
  simp only [Char.reduceEq, reduceIte]

theorem parseItems_more (fuel : Nat) (cs : List Char) (v : Json) (r2 : List Char)
    (hv : parseValue fuel (skipWs cs) = some (v, ',' :: r2)) :
    parseItems (fuel + 1) cs = (parseItems fuel r2).map (fun p => (v :: p.1, p.2)) := by
  rw [parseItems, hv]
  simp only []
  rw [skipWs_cons_of_not_ws (by decide)]
  simp only [Char.reduceEq, reduceIte]

theorem parseFields_last (fuel : Nat) (KR kl RV : List Char) (v : Json) (r4 : List Char)
    (hk : readStringChars KR = some (kl, ':' :: RV))
    (hv : parseValue fuel (skipWs RV) = some (v, '}' :: r4)) :
    parseFields (fuel + 1) ('"' :: KR) = some ([(String.mk kl, v)], r4) := by
  rw [parseFields, skipWs_cons_of_not_ws (by decide)]
  simp only [Char.reduceEq, reduceIte]
  rw [hk]
  simp only []
  rw [skipWs_cons_of_not_ws (by decide)]
  simp only [Char.reduceEq, reduceIte]
  rw [hv]
  simp only []
  rw [skipWs_cons_of_not_ws (by decide)]
  simp only [Char.reduceEq, reduceIte]

theorem parseFields_more (fuel : Nat) (KR kl RV : List Char) (v : Json) (r4 : List Char)
    (hk : readStringChars KR = some (kl, ':' :: RV))
    (hv : parseValue fuel (skipWs RV) = some (v, ',' :: r4)) :
    parseFields (fuel + 1) ('"' :: KR) =
      (parseFields fuel r4).map (fun p => ((String.mk kl, v) :: p.1, p.2)) := by
  rw [parseFields, skipWs_cons_of_not_ws (by decide)]
  simp only [Char.reduceEq, reduceIte]
  rw [hk]
  simp only []
  rw [skipWs_cons_of_not_ws (by decide)]
  simp only [Char.reduceEq, reduceIte]
  rw [hv]
  simp only []
  rw [skipWs_cons_of_not_ws (by decide)]
  simp only [Char.reduceEq, reduceIte]

theorem numDelim_nil : numDelim [] := trivial

theorem numDelim_rbracket (r : List Char) : numDelim (']' :: r) := by
  show isDigitChar ']' = false
  decide

theorem numDelim_rbrace (r : List Char) : numDelim ('}' :: r) := by
  show isDigitChar '}' = false
  decide

theorem numDelim_comma (r : List Char) : numDelim (',' :: r) := by
  show isDigitChar ',' = false
  decide

theorem parse_stringify_main : ∀ fuel : Nat,
    (∀ (v : Json) (rest : List Char), jsonFuel v ≤ fuel → numDelim rest →
      parseValue fuel (v.stringifyChars ++ rest) = some (v, rest)) ∧
    (∀ (es : List Json) (rest : List Char), es ≠ [] → itemsFuel es ≤ fuel →
      parseItems fuel (Json.arrBodyChars es ++ ']' :: rest) = some (es, rest)) ∧
    (∀ (fs : List (String × Json)) (rest : List Char), fs ≠ [] → fieldsFuel fs ≤ fuel →
      parseFields fuel (Json.objBodyChars fs ++ '}' :: rest) = some (fs, rest)) := by
  intro fuel
  induction fuel with
  | zero =>
    refine ⟨?_, ?_, ?_⟩
    · intro v rest hf _
      have := jsonFuel_pos v
      omega
    · intro es rest hne hf
      cases es with
      | nil => exact absurd rfl hne
      | cons v vs =>
        have hd : itemsFuel (v :: vs) = 1 + jsonFuel v + itemsFuel vs := rfl
        omega
    · intro fs rest hne hf
      cases fs with
      | nil => exact absurd rfl hne
      | cons kv fs =>
        obtain ⟨k, v⟩ := kv
        have hd : fieldsFuel ((k, v) :: fs) = 1 + jsonFuel v + fieldsFuel fs := rfl
        omega
  | succ fuel ih =>
    obtain ⟨ihV, ihI, ihF⟩ := ih
    refine ⟨?_, ?_, ?_⟩
    · intro v rest hf hrest
      cases v with
      | null => rfl
      | bool b => cases b <;> rfl
      | num i =>
        show parseValue (fuel + 1) (intReprChars i ++ rest) = some (.num i, rest)
        unfold intReprChars
        by_cases hi : i < 0
        · rw [if_pos hi, List.cons_append, parseValue_minus, readNat_natRepr _ _ hrest]
          simp only [Option.map_some', show -((i.natAbs : Nat) : Int) = i from by omega]
        · rw [if_neg hi]
          rcases List.exists_cons_of_ne_nil (natReprChars_ne_nil i.toNat) with ⟨c, t, he⟩
          have hd : isDigitChar c = true := by
            refine natRevDigits_all_digits i.toNat c (List.mem_reverse.mp ?_)
            rw [show (natRevDigits i.toNat).reverse = natReprChars i.toNat from rfl, he]
            simp
          rw [he, List.cons_append, parseValue_digit fuel c _ hd, ← List.cons_append, ← he,
            readNat_natRepr _ _ hrest]
          simp only [Option.map_some', show ((i.toNat : Nat) : Int) = i from by omega]
      | str s =>
        obtain ⟨l⟩ := s
        show parseValue (fuel + 1) (stringChars (String.mk l) ++ rest) =
          some (.str (String.mk l), rest)
        have hsh : stringChars (String.mk l) ++ rest =
            '"' :: (l.flatMap escapeChar ++ '"' :: rest) := by
          unfold stringChars
          simp
        rw [hsh, parseValue_quote, readStringChars_escape]
        rfl
      | arr es =>
        cases es with
        | nil =>
          exact parseValue_lbracket_close fuel rest
        | cons v vs =>
          have hstep : Json.stringifyChars (.arr (v :: vs)) ++ rest =
              '[' :: (Json.arrBodyChars (v :: vs) ++ ']' :: rest) := by
            show ('[' :: (Json.arrBodyChars (v :: vs) ++ [']'])) ++ rest = _
            rw [List.cons_append, List.append_assoc, List.singleton_append]
          rw [hstep]
          have hbody : headOk (Json.arrBodyChars (v :: vs)) := by
            cases vs with
            | nil =>
              rw [arrBodyChars_singleton]
              exact stringify_headOk v
            | cons w ws =>
              rw [arrBodyChars_cons2]
              rcases stringify_headOk v with ⟨c, t, he, h1, h2, h3, h4⟩
              exact ⟨c, t ++ ',' :: Json.arrBodyChars (w :: ws), by rw [he]; rfl, h1, h2, h3, h4⟩
          rcases hbody with ⟨c, t, he, hws, hrb, _, _⟩
          rw [he, List.cons_append, parseValue_lbracket_open fuel c _ hws hrb,
            ← List.cons_append, ← he]
          have hfi : itemsFuel (v :: vs) ≤ fuel := by
            have : jsonFuel (.arr (v :: vs)) = 1 + itemsFuel (v :: vs) := rfl
            omega
          rw [ihI (v :: vs) rest (by simp) hfi]
          rfl
      | obj fs =>
        cases fs with
        | nil =>
          exact parseValue_lbrace_close fuel rest
        | cons kv fs =>
          obtain ⟨k, v⟩ := kv
          have hstep : Json.stringifyChars (.obj ((k, v) :: fs)) ++ rest =
              '{' :: (Json.objBodyChars ((k, v) :: fs) ++ '}' :: rest) := by
            show ('{' :: (Json.objBodyChars ((k, v) :: fs) ++ ['}'])) ++ rest = _
            rw [List.cons_append, List.append_assoc, List.singleton_append]
          rw [hstep]
          have hbody : ∃ t, Json.objBodyChars ((k, v) :: fs) = '"' :: t := by
            cases fs with
            | nil =>
              rw [objBodyChars_singleton]
              exact ⟨_, rfl⟩
            | cons f2 fs2 =>
              obtain ⟨k2, v2⟩ := f2
              rw [objBodyChars_cons2]
              exact ⟨_, rfl⟩
          rcases hbody with ⟨t, he⟩
          rw [he, List.cons_append,
            parseValue_lbrace_open fuel '"' _ (by decide) (by decide),
            ← List.cons_append, ← he]
          have hfi : fieldsFuel ((k, v) :: fs) ≤ fuel := by
            have : jsonFuel (.obj ((k, v) :: fs)) = 1 + fieldsFuel ((k, v) :: fs) := rfl
            omega
          rw [ihF ((k, v) :: fs) rest (by simp) hfi]
          rfl
    · intro es rest hne hfuel
      cases es with
      | nil => exact absurd rfl hne
      | cons v vs =>
        have hd : itemsFuel (v :: vs) = 1 + jsonFuel v + itemsFuel vs := rfl
        cases vs with
        | nil =>
          rw [arrBodyChars_singleton]
          apply parseItems_last
          rw [skipWs_stringify_append]
          exact ihV v (']' :: rest) (by omega) (numDelim_rbracket rest)
        | cons w ws =>
          rw [arrBodyChars_cons2, List.append_assoc, List.cons_append]
          have hdw : itemsFuel (w :: ws) = 1 + jsonFuel w + itemsFuel ws := rfl
          rw [parseItems_more fuel _ v (Json.arrBodyChars (w :: ws) ++ ']' :: rest)
            (by
              rw [skipWs_stringify_append]
              exact ihV v (',' :: (Json.arrBodyChars (w :: ws) ++ ']' :: rest)) (by omega)
                (numDelim_comma _))]
          rw [ihI (w :: ws) rest (by simp) (by omega)]
          rfl
    · intro fs rest hne hfuel
      cases fs with
      | nil => exact absurd rfl hne
      | cons kv fs =>
        obtain ⟨k, v⟩ := kv
        obtain ⟨kl⟩ := k
        have hd : fieldsFuel ((String.mk kl, v) :: fs) = 1 + jsonFuel v + fieldsFuel fs := rfl
        cases fs with
        | nil =>
          rw [objBodyChars_singleton]
          have hsh : (stringChars (String.mk kl) ++ ':' :: v.stringifyChars) ++ '}' :: rest =
              '"' :: (kl.flatMap escapeChar ++ '"' ::
                (':' :: (v.stringifyChars ++ '}' :: rest))) := by
            unfold stringChars
            simp
          rw [hsh]
          rw [parseFields_last fuel _ kl (v.stringifyChars ++ '}' :: rest) v rest
            (readStringChars_escape kl _)
            (by
              rw [skipWs_stringify_append]
              exact ihV v ('}' :: rest) (by omega) (numDelim_rbrace rest))]
        | cons f2 fs2 =>
          obtain ⟨k2, v2⟩ := f2
          rw [objBodyChars_cons2]
          have hd2 : fieldsFuel ((k2, v2) :: fs2) = 1 + jsonFuel v2 + fieldsFuel fs2 := rfl
          have hsh : (stringChars (String.mk kl) ++ ':' :: v.stringifyChars ++
                ',' :: Json.objBodyChars ((k2, v2) :: fs2)) ++ '}' :: rest =
              '"' :: (kl.flatMap escapeChar ++ '"' ::
                (':' :: (v.stringifyChars ++
                  ',' :: (Json.objBodyChars ((k2, v2) :: fs2) ++ '}' :: rest)))) := by
            unfold stringChars
            rw [show (String.mk kl).data = kl from rfl]
            simp [List.append_assoc]
          rw [hsh]
          rw [parseFields_more fuel _ kl
            (v.stringifyChars ++ ',' :: (Json.objBodyChars ((k2, v2) :: fs2) ++ '}' :: rest)) v
            (Json.objBodyChars ((k2, v2) :: fs2) ++ '}' :: rest)
            (readStringChars_escape kl _)
            (by
              rw [skipWs_stringify_append]
              exact ihV v (',' :: (Json.objBodyChars ((k2, v2) :: fs2) ++ '}' :: rest))
                (by omega) (numDelim_comma _))]
          rw [ihF ((k2, v2) :: fs2) rest (by simp) (by omega)]
          rfl

theorem skipWs_stringify (v : Json) : skipWs v.stringifyChars = v.stringifyChars := by
  rcases stringify_headOk v with ⟨c, t, he, hws, _⟩
  rw [he, skipWs_cons_of_not_ws hws]

/-- Parsing the full serialization of a value recovers the value: the
round-trip property of the modelled `JSON.parse` and `JSON.stringify`. -/
theorem jsonParse_stringify (v : Json) : jsonParse (Json.stringify v) = some v := by
  unfold jsonParse Json.stringify
  have hp := (parse_stringify_main (v.stringifyChars.length + 1)).1 v []
    (by have := jsonFuel_le_length v; omega) numDelim_nil
  rw [List.append_nil] at hp
  rw [show (String.mk v.stringifyChars).data = v.stringifyChars from rfl]
  rw [skipWs_stringify, hp]
  rfl

/-- Parsing a serialized value wrapped in square brackets yields the
one-element array holding the value. -/
theorem jsonParse_brackets (v : Json) :
    jsonParse (String.mk ('[' :: v.stringifyChars ++ [']'])) = some (.arr [v]) := by
  unfold jsonParse
  rw [show (String.mk ('[' :: v.stringifyChars ++ [']'])).data =
    '[' :: v.stringifyChars ++ [']'] from rfl]
  rw [show ('[' :: v.stringifyChars ++ [']']).length = v.stringifyChars.length + 2 by simp]
  rw [List.cons_append]
  rw [skipWs_cons_of_not_ws (show isJsonWs '[' = false by decide)]
  rcases stringify_headOk v with ⟨c, t, he, hws, hrb, _, _⟩
  have hv : parseValue (v.stringifyChars.length + 2 + 1) ('[' :: (v.stringifyChars ++ [']'])) =
      some (.arr [v], []) := by
    rw [show ('[' :: (v.stringifyChars ++ [']'])) = '[' :: c :: (t ++ [']']) by rw [he]; rfl]
    rw [parseValue_lbracket_open _ c _ hws hrb]
    rw [show c :: (t ++ [']']) = Json.arrBodyChars [v] ++ ']' :: [] by
      rw [arrBodyChars_singleton, he]; rfl]
    rw [(parse_stringify_main (v.stringifyChars.length + 2)).2.1 [v] [] (by simp)
      (by
        have h1 : itemsFuel [v] = 1 + jsonFuel v + itemsFuel [] := rfl
        have h2 : itemsFuel ([] : List Json) = 0 := rfl
        have := jsonFuel_le_length v
        omega)]
    rfl
  rw [hv]
  rfl

theorem parseValue_lbracket_shape (fuel : Nat) (cs : List Char) (v : Json) (r : List Char) :
    parseValue fuel ('[' :: cs) = some (v, r) → ∃ xs, v = Json.arr xs := by
  cases fuel with
  | zero => intro h; exact absurd h (by simp [parseValue])
  | succ fuel =>
    rw [parseValue]
    simp only [Char.reduceEq, reduceIte]
    intro h
    split at h
    · cases h
    · next c2 r2 =>
      split at h
      · cases h
        exact ⟨[], rfl⟩
      · rw [Option.map_eq_some'] at h
        obtain ⟨p, _, hpe⟩ := h
        cases hpe
        exact ⟨p.1, rfl⟩

/-- Any successful `jsonParse` of input starting with a square bracket
yields an array. -/
theorem jsonParse_lbracket_arr (s : List Char) (v : Json) :
    jsonParse (String.mk ('[' :: s)) = some v → ∃ xs, v = Json.arr xs := by
  unfold jsonParse
  rw [show (String.mk ('[' :: s)).data = '[' :: s from rfl,
    skipWs_cons_of_not_ws (by decide)]
  intro h
  split at h
  · next v' rest' hpv =>
    split at h
    · cases h
      exact parseValue_lbracket_shape _ _ _ _ hpv
    · cases h
  · cases h

/-- Decoding one frame serialized by the codec model, provided the wire
text is unchanged by the CR/LF strip and the `}{` splice. -/
theorem parseMsg_stringify_frame (v : Json)
    (hstrip : stripCRLF (Json.stringify v).data = (Json.stringify v).data)
    (hsplice : splice (Json.stringify v).data = (Json.stringify v).data) :
    parseMsg (Json.stringify v) = [normalizeEntry v] := by
  unfold parseMsg wrapTransform
  rw [hstrip, hsplice]
  rw [show (Json.stringify v).data = v.stringifyChars from rfl]
  rw [jsonParse_brackets]
  rfl

theorem normalizeEntry_frame (a b c d : Json) :
    normalizeEntry (.obj [("id", a), ("command", b), ("data", c), ("delivery", d)]) =
      { id := falsyToNull a, command := falsyToNull b,
        data := falsyToNull c, delivery := falsyToNull d } := rfl

theorem falsyToNull_id {v : Json} (h : v = Json.null ∨ jsFalsy v = false) :
    falsyToNull v = v := by
  rcases h with h | h
  · rw [h]; rfl
  · unfold falsyToNull
    rw [h]
    rfl

theorem jsToString_str (s : String) : jsToString (.str s) = s := by
  rw [jsToString]

theorem toStringOrNull_str (s : String) : toStringOrNull (.str s) = .str s := by
  unfold toStringOrNull
  rw [if_neg (by simp), jsToString_str]

theorem toStringOrNull_null : toStringOrNull .null = .null := by
  unfold toStringOrNull
  rw [if_pos rfl]

/-! The fabric model: handler registry, server core, client core and send
queues, translated from src/ipcio.js.  JavaScript objects used as string
maps become association lists in insertion order; socket handles become
`SocketRef` values carrying an id and the `writable` flag; `write` calls
become entries of an output list (socket id, bytes). -/

/-- A socket handle: identity plus the `writable` flag the source tests
before each write. -/
structure SocketRef where
  sid : Nat
  writable : Bool
deriving DecidableEq, Repr

/-- The container handed to command handlers (`executeCommandHandlers`). -/
structure HandlerContainer where
  data : Json
  uuid : String
  name : String
  socket : Option SocketRef
  server : Option String

/-- An application command handler; `none` models a callback that returns
`undefined`. -/
def Handler := HandlerContainer → Option Json

/-- First-match association-list lookup (JavaScript object property read,
keys are unique by construction). -/
def alookup (l : List (String × α)) (k : String) : Option α :=
  (l.find? (fun kv => kv.1 = k)).map (fun kv => kv.2)

/-- JavaScript property assignment: overwrite in place or append. -/
def aset : List (String × α) → String → α → List (String × α)
  | [], k, v => [(k, v)]
  | (k0, v0) :: t, k, v => if k0 = k then (k0, v) :: t else (k0, v0) :: aset t k v

/-- JavaScript `delete obj[k]`. -/
def aerase : List (String × α) → String → List (String × α)
  | [], _ => []
  | (k0, v0) :: t, k => if k0 = k then t else (k0, v0) :: aerase t k

/-- Truthiness of a registry read: the key maps to a non-empty string. -/
def truthyLookup (l : List (String × String)) (k : String) : Bool :=
  match alookup l k with
  | some v => v ≠ ""
  | none => false

/-- The six reserved command names `addCommandHandler` rejects. -/
def restrictedCommands : List String :=
  ["handshake", "discover", "broadcast", "emit", "delivery", "error"]

/-- Model of `addCommandHandler`: called with a string command and callable
handler (the other two `throw` branches of the source guard argument types
the model enforces statically).  Returns the updated registry and the error
message of a `throw`, if any; on a throw the registry is untouched because
both throwing checks precede the assignment. -/
def addCommandHandler (reg : List (String × Handler)) (command : String) (h : Handler) :
    List (String × Handler) × Option String :=
  if command ∈ restrictedCommands then
    (reg, some "Argument passed as command is restricted command name.")
  else if (alookup reg command).isSome then
    (reg, some "Handler for command already registered.")
  else (reg ++ [(command, h)], none)

/-- Model of `addHandlers` (shared by server and client): registers the
collection's entries in order, stopping at the first `throw`; entries added
before the throw stay registered, as JavaScript exceptions do not roll back
prior assignments. -/
def addHandlers (reg : List (String × Handler)) :
    List (String × Handler) → List (String × Handler) × Option String
  | [] => (reg, none)
  | (c, h) :: rest =>
    match addCommandHandler reg c h with
    | (reg1, none) => addHandlers reg1 rest
    | (reg1, some e) => (reg1, some e)

/-- Model of `executeCommandHandlers` (shared by server and client): when
the message's command is non-null and a handler is registered under it, the
handler runs on the container and its return value is normalized so that
`undefined` becomes null. -/
def executeCommandHandlers (handlers : List (String × Handler)) (uuid client_name : String)
    (socket : Option SocketRef) (server : Option String) (message : Frame) : Json :=
  match message.command with
  | .null => .null
  | cmd =>
    match alookup handlers (jsToString cmd) with
    | some h =>
      (h { data := message.data, uuid := uuid, name := client_name,
           socket := socket, server := server }).getD .null
    | none => .null

/-- The per-uuid client record of the server's `_uuid_registry`: friendly
name, the transient unique listener (the record's `server` field, tagged by
its socket-path uuid), and the accepted unique socket. -/
structure ClientRecord where
  name : Option String := none
  listener : Option String := none
  socket : Option SocketRef := none
deriving DecidableEq, Repr

/-- State of an `IpcServer` instance: the three registries and the handler
collection (logging, encoding and socket-path options are out of scope). -/
structure IpcServer where
  name_registry : List (String × String)
  uuid_registry : List (String × ClientRecord)
  delivery_registry : List (String × String)
  command_handlers : List (String × Handler)

/-- A write performed on a socket: target socket id and the bytes. -/
abbrev Write := Nat × String

/-- Model of `IpcServer#emit`: writes one frame to the named client's
unique socket when the name registry has the name, the uuid registry has a
record with a socket, and that socket is writable; otherwise writes
nothing.  The method never touches any registry (it returns `this`). -/
def IpcServer.emit (st : IpcServer) (client_name : String) (command data delivery : Json) :
    IpcServer × List Write :=
  match alookup st.name_registry client_name with
  | some uuid =>
    match alookup st.uuid_registry uuid with
    | some rec =>
      match rec.socket with
      | some sock =>
        if sock.writable then
          (st, [(sock.sid, prepareMsg4 .null command data delivery)])
        else (st, [])
      | none => (st, [])
    | none => (st, [])
  | none => (st, [])

/-- Model of `IpcServer#broadcast`: writes the frame to every registered
uuid whose record holds a writable socket, skipping the uuid registered
under `initiator_client` when that argument is truthy. -/
def IpcServer.broadcast (st : IpcServer) (command data : Json)
    (initiator_client : Option String) : IpcServer × List Write :=
  (st, st.uuid_registry.flatMap (fun kv =>
    if (match initiator_client with
        | some nm => nm ≠ "" && (alookup st.name_registry nm == some kv.1)
        | none => false) then []
    else
      match kv.2.socket with
      | some sock => if sock.writable then [(sock.sid, prepareMsg2 command data)] else []
      | none => []))

/-- Model of the `switch` body of `$onServerBcastData` for one parsed
frame.  `uuid` is the id allocated for this rendezvous connection,
`bcastSid` the rendezvous socket the reply goes to.  Returns the new state,
the writes, and the uuids for which a unique listener was spawned; `.error`
models a thrown `TypeError` (the relay branches call `parseMsg` on the
frame's `data` and read `[0]` of the result, which throws when `data` is
not a string or parses to an empty array; processing of the buffer stops
there). -/
def onServerBcastMessage (st : IpcServer) (uuid : String) (bcastSid : Nat) (message : Frame) :
    Except String (IpcServer × List Write × List String) :=
  if message.command = .str "handshake" then
    let client_name := message.data
    let nameKey := jsToString client_name
    if truthyLookup st.name_registry nameKey then
      .ok (st, [(bcastSid, prepareMsg3 client_name (.str "error") (.num 201))], [])
    else
      .ok ({ st with
              name_registry := aset st.name_registry nameKey uuid,
              uuid_registry := aset st.uuid_registry uuid
                { name := some nameKey, listener := some uuid, socket := none } },
        [(bcastSid, prepareMsg3 client_name (.str "handshake") (.str uuid))], [uuid])
  else if message.command = .str "discover" then
    .ok (st, [(bcastSid, prepareMsg3 message.id (.str "discover")
      (.obj [("clients", .arr (st.name_registry.map (fun kv => .str kv.1))),
             ("command_handlers", .arr (st.command_handlers.map (fun kv => .str kv.1)))]))], [])
  else if message.command = .str "broadcast" then
    match message.data with
    | .str s =>
      match (parseMsg s).head? with
      | some inner => .ok (st, (IpcServer.broadcast st inner.command inner.data none).2, [])
      | none => .error "TypeError: cannot read property of undefined"
    | _ => .error "TypeError: argument passed must be a buffer or string"
  else if message.command = .str "emit" then
    let client_name := message.id
    let st1 :=
      if message.delivery ≠ .null then
        { st with
          delivery_registry :=
            aset st.delivery_registry (jsToString message.delivery) (jsToString client_name) }
      else st
    match message.data with
    | .str s =>
      match (parseMsg s).head? with
      | some inner =>
        .ok (st1, (IpcServer.emit st1 (jsToString inner.id) inner.command inner.data
          inner.delivery).2, [])
      | none => .error "TypeError: cannot read property of undefined"
    | _ => .error "TypeError: argument passed must be a buffer or string"
  else .ok (st, [], [])

/-- Model of `$onServerBcastData`: parse the buffer and process each frame
in order, accumulating writes and spawned listeners. -/
def onServerBcastData (st : IpcServer) (uuid : String) (bcastSid : Nat) (buffer : String) :
    Except String (IpcServer × List Write × List String) :=
  (parseMsg buffer).foldlM
    (fun acc msg => (onServerBcastMessage acc.1 uuid bcastSid msg).map
      (fun r => (r.1, acc.2.1 ++ r.2.1, acc.2.2 ++ r.2.2)))
    (st, ([], []))

/-- The fall-through part of `$onServerUniqueData` for one frame: run any
registered handler and, when the frame carries a delivery id, reply with a
`delivery` frame holding the handler's return value (null when it returned
nothing). -/
def serverUniqueFall (st : IpcServer) (uuid client_name : String) (message : Frame) :
    IpcServer × List Write :=
  let iface := (alookup st.uuid_registry uuid).getD {}
  let ret := executeCommandHandlers st.command_handlers uuid client_name
    iface.socket iface.listener message
  if message.delivery ≠ .null then
    (st, (IpcServer.emit st client_name (.str "delivery") ret message.delivery).2)
  else (st, [])

/-- Model of the body of `$onServerUniqueData` for one parsed frame: a
`delivery` frame whose id is in the delivery registry is forwarded to the
recorded originator and the registry entry removed; everything else falls
through to handler dispatch. -/
def onServerUniqueMessage (st : IpcServer) (uuid client_name : String) (message : Frame) :
    IpcServer × List Write :=
  let dkey := jsToString message.delivery
  match alookup st.delivery_registry dkey with
  | some orig =>
    if message.command = .str "delivery" ∧ message.delivery ≠ .null then
      ({ st with delivery_registry := aerase st.delivery_registry dkey },
       (IpcServer.emit st orig (.str "delivery") message.data message.delivery).2)
    else serverUniqueFall st uuid client_name message
  | none => serverUniqueFall st uuid client_name message

/-- Model of `$onServerUniqueData`: parse the buffer, process frames in
order. -/
def onServerUniqueData (st : IpcServer) (uuid client_name : String) (buffer : String) :
    IpcServer × List Write :=
  (parseMsg buffer).foldl
    (fun acc msg =>
      let r := onServerUniqueMessage acc.1 uuid client_name msg
      (r.1, acc.2 ++ r.2))
    (st, [])

/-- State of a client-side pending delivery slot: the source stores the
promise's `resolve` function under the delivery id and overwrites it with
`undefined` once called. -/
inductive SlotState where
  | pending
  | used
deriving DecidableEq, Repr

/-- State of an `IpcClient` instance, restricted to the fields the claims
touch: name, channel id, unique socket, the delivery-resolver map, the two
send queues (bytes only; completion resolvers are studied separately in
`QueueState`), and the handler collection. -/
structure IpcClient where
  client_name : String
  channel_id : Option String := none
  uniqueSocket : Option SocketRef := none
  deliveries : List (String × SlotState) := []
  queue : List String := []
  bcast_queue : List String := []
  command_handlers : List (String × Handler) := []

/-- The fall-through part of `$onClientUniqueData` for one frame: run any
registered handler and, when the frame carries a delivery id, enqueue a
`delivery` reply (`this.send(COMMAND_DELIVER, ret, message.delivery)`) on
the unique queue. -/
def clientUniqueFall (cst : IpcClient) (uuid client_name : String) (message : Frame) :
    IpcClient × List (String × Json) :=
  let ret := executeCommandHandlers cst.command_handlers uuid client_name
    cst.uniqueSocket none message
  if message.delivery ≠ .null then
    ({ cst with queue :=
        cst.queue ++ [prepareMsg4 .null (.str "delivery") ret message.delivery] }, [])
  else (cst, [])

/-- Model of the body of `$onClientUniqueData` for one parsed frame.  A
`delivery` frame whose id maps to a pending resolver fulfills the delivery
promise — recorded as a completion `(id, value)` — and blanks the slot;
everything else falls through to handler dispatch.  Returns the new client
state and the completions fired. -/
def onClientUniqueMessage (cst : IpcClient) (uuid client_name : String) (message : Frame) :
    IpcClient × List (String × Json) :=
  let dkey := jsToString message.delivery
  match alookup cst.deliveries dkey with
  | some .pending =>
    if message.command = .str "delivery" ∧ message.delivery ≠ .null then
      ({ cst with deliveries := aset cst.deliveries dkey .used }, [(dkey, message.data)])
    else clientUniqueFall cst uuid client_name message
  | _ => clientUniqueFall cst uuid client_name message

/-- Model of `$onClientUniqueData`: parse the buffer, process frames in
order, collecting completions. -/
def onClientUniqueData (cst : IpcClient) (uuid client_name : String) (buffer : String) :
    IpcClient × List (String × Json) :=
  (parseMsg buffer).foldl
    (fun acc msg =>
      let r := onClientUniqueMessage acc.1 uuid client_name msg
      (r.1, acc.2 ++ r.2))
    (cst, [])

/-- Model of `IpcClient#deliver`.  The two source arities (with and without
a target client name) are merged behind the `client_name` option, matching
the argument shuffle the source performs when `data` is `undefined`;
`delivery` stands for the fresh dash-free hex uuid the source draws.  A
pending resolver is installed under the id, then the frame is enqueued on
the rendezvous queue as an `emit` envelope (named form, the id on both the
outer and the inner frame) or on the unique queue as a direct send. -/
def IpcClient.deliver (cst : IpcClient) (client_name : Option String) (command data : Json)
    (delivery : String) : IpcClient :=
  let cst1 := { cst with deliveries := aset cst.deliveries delivery .pending }
  match client_name with
  | some nm =>
    { cst1 with bcast_queue := cst1.bcast_queue ++
        [prepareMsg4 (.str cst.client_name) (.str "emit")
          (.str (prepareMsg4 (.str nm) command data (.str delivery))) (.str delivery)] }
  | none =>
    { cst1 with queue := cst1.queue ++ [prepareMsg4 .null command data (.str delivery)] }

/-! The send-queue machine (`sendQueueEntry` / `handleQueue` and their
rendezvous-queue twins `sendBcastQueueEntry` / `handleBcastQueue`, which
are textually identical up to the field names).  One queue is modelled with
ghost fields: `processed` (entries acknowledged, in order), `enqueued`
(every entry ever pushed, in order) and `inflight` (writes issued and not
yet acknowledged).  Entries carry the bytes and an optional completion
signal (the promise `resolve` of the corresponding `send`/`emit` call). -/
structure QueueState where
  queue : List (String × Option Nat)
  emptying : Bool
  is_connected : Bool
  inflight : Nat
  processed : List (String × Option Nat)
  enqueued : List (String × Option Nat)
deriving DecidableEq, Repr

/-- Model of `sendQueueEntry`: while connected and the queue is non-empty,
write the head entry (the callback that pops it runs on acknowledgment:
event `ackWrite`); otherwise clear the draining flag.  Returns the writes
issued. -/
def sendQueueEntry (s : QueueState) : QueueState × List String :=
  if s.is_connected ∧ s.queue ≠ [] then
    ({ s with inflight := s.inflight + 1 }, [(s.queue.headD ("", none)).1])
  else ({ s with emptying := false }, [])

/-- Model of `handleQueue`: start draining unless already draining. -/
def handleQueue (s : QueueState) : QueueState × List String :=
  if s.is_connected ∧ s.queue ≠ [] ∧ s.emptying = false then
    sendQueueEntry { s with emptying := true }
  else (s, [])

/-- The write-acknowledgment callback inside `sendQueueEntry`: shift the
head entry, fire its completion signal, and either stop draining (empty
queue) or write the next entry.  Modelled as an event requiring an
outstanding write. -/
def ackWrite (s : QueueState) : QueueState × List Nat × List String :=
  if s.inflight = 0 then (s, [], [])
  else
    match s.queue with
    | [] => ({ s with inflight := s.inflight - 1 }, [], [])
    | e :: rest =>
      let s1 := { s with queue := rest, inflight := s.inflight - 1,
                         processed := s.processed ++ [e] }
      let fired := match e.2 with
        | some sig => [sig]
        | none => []
      if rest = [] then ({ s1 with emptying := false }, fired, [])
      else
        let r := sendQueueEntry s1
        (r.1, fired, r.2)

/-- A `send`/`emit`/`broadcast` call: push the entry and call the queue
handler. -/
def pushEntry (s : QueueState) (e : String × Option Nat) : QueueState × List String :=
  handleQueue { s with queue := s.queue ++ [e], enqueued := s.enqueued ++ [e] }

/-- `$onClientOffline`: the connected flag drops, queues are preserved. -/
def goOffline (s : QueueState) : QueueState := { s with is_connected := false }

/-- `$onClientUniqueConnect`: the connected flag rises and `handleQueue`
runs. -/
def goOnline (s : QueueState) : QueueState × List String :=
  handleQueue { s with is_connected := true }

/-- One event of the queue machine. -/
inductive QStep : QueueState → QueueState → Prop
  | push (s : QueueState) (e : String × Option Nat) : QStep s (pushEntry s e).1
  | ack (s : QueueState) : QStep s (ackWrite s).1
  | offline (s : QueueState) : QStep s (goOffline s)
  | online (s : QueueState) : QStep s (goOnline s).1

/-- The queue of a freshly constructed client. -/
def initQueueState : QueueState :=
  { queue := [], emptying := false, is_connected := false, inflight := 0,
    processed := [], enqueued := [] }

/-- States the queue machine can reach. -/
inductive QReachable : QueueState → Prop
  | init : QReachable initQueueState
  | step {s s' : QueueState} : QReachable s → QStep s s' → QReachable s'

/-- The queue invariant: acknowledged entries followed by the current queue
are exactly the entries enqueued, in order; at most one write is in flight;
no write is in flight unless draining; an in-flight write pins a non-empty
queue. -/
def QInv (s : QueueState) : Prop :=
  s.processed ++ s.queue = s.enqueued ∧ s.inflight ≤ 1 ∧
    (s.emptying = false → s.inflight = 0) ∧ (1 ≤ s.inflight → s.queue ≠ [])

theorem qinv_init : QInv initQueueState := by
  refine ⟨rfl, by simp [initQueueState], fun _ => rfl, by simp [initQueueState]⟩

theorem qinv_push (s : QueueState) (e : String × Option Nat) (h : QInv s) :
    QInv (pushEntry s e).1 := by
  obtain ⟨h1, h2, h3, h4⟩ := h
  unfold pushEntry handleQueue sendQueueEntry QInv
  split_ifs with hc hs
  · have h0 : s.inflight = 0 := h3 hc.2.2
    simp only []
    refine ⟨by rw [← List.append_assoc, h1], by omega, by simp, by simp⟩
  · exact absurd ⟨hc.1, hc.2.1⟩ hs
  · simp only []
    refine ⟨by rw [← List.append_assoc, h1], h2, h3, fun hi => by simp⟩

theorem qinv_offline (s : QueueState) (h : QInv s) : QInv (goOffline s) := by
  obtain ⟨h1, h2, h3, h4⟩ := h
  exact ⟨h1, h2, h3, h4⟩

theorem qinv_online (s : QueueState) (h : QInv s) : QInv (goOnline s).1 := by
  obtain ⟨h1, h2, h3, h4⟩ := h
  unfold goOnline handleQueue sendQueueEntry QInv
  split_ifs with hc hs
  · have h0 : s.inflight = 0 := h3 hc.2.2
    simp only []
    refine ⟨h1, by omega, by simp, fun _ => hc.2.1⟩
  · exact absurd (by simpa using hs) hc.2.1
  · exact ⟨h1, h2, h3, h4⟩

theorem ackWrite_cons_last (s : QueueState) (e : String × Option Nat)
    (hz : ¬s.inflight = 0) (hqe : s.queue = [e]) :
    (ackWrite s).1 = { s with queue := [], inflight := s.inflight - 1, processed := s.processed ++ [e], emptying := false } := by
  unfold ackWrite
  rw [if_neg hz, hqe]
  rfl

theorem ackWrite_cons_more (s : QueueState) (e e2 : String × Option Nat)
    (rest2 : List (String × Option Nat)) (hz : ¬s.inflight = 0)
    (hqe : s.queue = e :: e2 :: rest2) :
    (ackWrite s).1 = (sendQueueEntry { s with queue := e2 :: rest2, inflight := s.inflight - 1, processed := s.processed ++ [e] }).1 := by
  unfold ackWrite
  rw [if_neg hz, hqe]
  rfl

theorem sendQueueEntry_go (s : QueueState) (hc : s.is_connected ∧ s.queue ≠ []) :
    (sendQueueEntry s).1 = { s with inflight := s.inflight + 1 } := by
  unfold sendQueueEntry
  rw [if_pos hc]

theorem sendQueueEntry_stop (s : QueueState) (hc : ¬(s.is_connected ∧ s.queue ≠ [])) :
    (sendQueueEntry s).1 = { s with emptying := false } := by
  unfold sendQueueEntry
  rw [if_neg hc]

theorem qinv_ack (s : QueueState) (h : QInv s) : QInv (ackWrite s).1 := by
  obtain ⟨h1, h2, h3, h4⟩ := h
  by_cases hz : s.inflight = 0
  · unfold ackWrite
    rw [if_pos hz]
    exact ⟨h1, h2, h3, h4⟩
  · have hq := h4 (by omega)
    have hemp : s.emptying = true := by
      rcases Bool.eq_false_or_eq_true s.emptying with he | he
      · exact he
      · exact absurd (h3 he) hz
    rcases hqe : s.queue with _ | ⟨e, rest⟩
    · exact absurd hqe hq
    rcases rest with _ | ⟨e2, rest2⟩
    · rw [ackWrite_cons_last s e hz hqe]
      refine ⟨?_, by simp; omega, fun _ => by simp; omega, fun hi => by simp at hi; omega⟩
      show (s.processed ++ [e]) ++ [] = s.enqueued
      rw [List.append_nil, ← h1, hqe]
    · rw [ackWrite_cons_more s e e2 rest2 hz hqe]
      by_cases hcon : ({ s with queue := e2 :: rest2, inflight := s.inflight - 1, processed := s.processed ++ [e] } : QueueState).is_connected ∧ ({ s with queue := e2 :: rest2, inflight := s.inflight - 1, processed := s.processed ++ [e] } : QueueState).queue ≠ []
      · rw [sendQueueEntry_go _ hcon]
        refine ⟨?_, by simp; omega, fun habs => ?_, fun _ => by simp⟩
        · show (s.processed ++ [e]) ++ (e2 :: rest2) = s.enqueued
          rw [List.append_assoc, ← h1, hqe]
          rfl
        · rw [show ({ s with queue := e2 :: rest2, inflight := s.inflight - 1 + 1, processed := s.processed ++ [e] } : QueueState).emptying = s.emptying from rfl] at habs
          rw [hemp] at habs
          cases habs
      · rw [sendQueueEntry_stop _ hcon]
        refine ⟨?_, by simp; omega, fun _ => by simp; omega, fun hi => by simp at hi; omega⟩
        show (s.processed ++ [e]) ++ (e2 :: rest2) = s.enqueued
        rw [List.append_assoc, ← h1, hqe]
        rfl

/-- Every reachable queue state satisfies the invariant. -/
theorem qinv_reachable (s : QueueState) (h : QReachable s) : QInv s := by
  induction h with
  | init => exact qinv_init
  | step _ hs ih =>
    cases hs with
    | push e => exact qinv_push _ e ih
    | ack => exact qinv_ack _ ih
    | offline => exact qinv_offline _ ih
    | online => exact qinv_online _ ih

/-! Claim theorems. -/

/-- C8: for every input byte string whose transformed form (CR/LF
stripped, back-to-back braces spliced with a comma, wrapped in square
brackets) is not parseable as JSON, `parseMsg` returns exactly the
one-element list holding the synthetic frame
`{id: null, command: "error", data: 101, delivery: null}`. -/
theorem c8_parse_failure_error_frame (message : String)
    (h : jsonParse (wrapTransform message) = none) :
    parseMsg message = [errorFrame 101] := by
  unfold parseMsg
  rw [h]

theorem c8_parse_failure_error_frame_witness :
    jsonParse (wrapTransform "@") = none ∧ parseMsg "@" = [errorFrame 101] :=
  ⟨by decide, c8_parse_failure_error_frame "@" (by decide)⟩

/-- C10: `parseMsg` never takes the NOT_ARRAY (error 102) branch: because
the transformed input is wrapped in square brackets, every successful
`JSON.parse` yields an array, so whenever parsing succeeds `parseMsg`
returns the normalized elements of that array. -/
theorem c10_parse_success_always_array (message : String) (v : Json)
    (h : jsonParse (wrapTransform message) = some v) :
    ∃ xs, v = Json.arr xs ∧ parseMsg message = xs.map normalizeEntry := by
  obtain ⟨xs, hxs⟩ := jsonParse_lbracket_arr (splice (stripCRLF message.data) ++ [']']) v h
  subst hxs
  refine ⟨xs, rfl, ?_⟩
  unfold parseMsg
  rw [h]

theorem c10_parse_success_always_array_witness :
    jsonParse (wrapTransform "1") = some (Json.arr [Json.num 1]) ∧
      (∃ xs, Json.arr [Json.num 1] = Json.arr xs ∧ parseMsg "1" = xs.map normalizeEntry) :=
  ⟨by decide, c10_parse_success_always_array "1" (Json.arr [Json.num 1]) (by decide)⟩

/-- The codec normalization `entry.field || null` keeps a field that is
null or a non-empty string. -/
theorem nullOrNonemptyStr_roundtrip (v : Json)
    (h : v = Json.null ∨ ∃ s, v = Json.str s ∧ s ≠ "") :
    falsyToNull (toStringOrNull v) = v := by
  rcases h with h | ⟨s, hs, hne⟩
  · rw [h, toStringOrNull_null]
    rfl
  · rw [hs, toStringOrNull_str]
    unfold falsyToNull
    rw [if_neg (by simp [jsFalsy, hne])]

theorem nullOrNonemptyStr_falsy (v : Json)
    (h : v = Json.null ∨ ∃ s, v = Json.str s ∧ s ≠ "") :
    falsyToNull v = v := by
  rcases h with h | ⟨s, hs, hne⟩
  · rw [h]
    rfl
  · rw [hs]
    unfold falsyToNull
    rw [if_neg (by simp [jsFalsy, hne])]

/-- C2 (counterexample): the round-trip claim fails as stated.  The
message `{id: null, command: null, data: 0, delivery: null}` has its
`data` field present (the number 0), yet decoding its encoding nulls the
field, because `parseMsg` normalizes every falsy field with
`entry.data || null`. -/
theorem c2_roundtrip_counterexample :
    parseMsg (prepareMsg4 .null .null (.num 0) .null) =
      [{ id := .null, command := .null, data := .null, delivery := .null }] ∧
    ({ id := .null, command := .null, data := .null, delivery := .null } : Frame) ≠
      { id := .null, command := .null, data := Json.num 0, delivery := .null } := by
  exact ⟨by decide, by decide⟩

/-- C2 (amended): decoding the encoding of a message yields exactly that
message, provided the fields survive the codec: `id`, `command` and
`delivery` are null or non-empty strings (as they are on the wire), `data`
is null or not JavaScript-falsy, and the encoded bytes are unchanged by
the CR/LF strip and the back-to-back-brace splice (no literal `}{` inside
an encoded string). -/
theorem c2_roundtrip_amended (id command data delivery : Json)
    (hid : id = Json.null ∨ ∃ s, id = Json.str s ∧ s ≠ "")
    (hcmd : command = Json.null ∨ ∃ s, command = Json.str s ∧ s ≠ "")
    (hdel : delivery = Json.null ∨ ∃ s, delivery = Json.str s ∧ s ≠ "")
    (hdata : data = Json.null ∨ jsFalsy data = false)
    (hstrip : stripCRLF (prepareMsg4 id command data delivery).data =
      (prepareMsg4 id command data delivery).data)
    (hsplice : splice (prepareMsg4 id command data delivery).data =
      (prepareMsg4 id command data delivery).data) :
    parseMsg (prepareMsg4 id command data delivery) =
      [{ id := id, command := command, data := data, delivery := delivery }] := by
  have hobj : prepareMsg4 id command data delivery =
      Json.stringify (.obj [("id", toStringOrNull id), ("command", toStringOrNull command),
        ("data", data), ("delivery", delivery)]) := rfl
  rw [hobj] at hstrip hsplice ⊢
  rw [parseMsg_stringify_frame _ hstrip hsplice, normalizeEntry_frame]
  rw [nullOrNonemptyStr_roundtrip id hid, nullOrNonemptyStr_roundtrip command hcmd]
  rw [nullOrNonemptyStr_falsy delivery hdel]
  rw [falsyToNull_id hdata]

theorem c2_roundtrip_amended_witness :
    ((Json.str "a" = Json.null ∨ ∃ s, Json.str "a" = Json.str s ∧ s ≠ "") ∧
     (Json.str "cmd" = Json.null ∨ ∃ s, Json.str "cmd" = Json.str s ∧ s ≠ "") ∧
     (Json.str "d1" = Json.null ∨ ∃ s, Json.str "d1" = Json.str s ∧ s ≠ "") ∧
     (Json.obj [("x", Json.num 7)] = Json.null ∨ jsFalsy (Json.obj [("x", Json.num 7)]) = false)) ∧
    parseMsg (prepareMsg4 (.str "a") (.str "cmd") (.obj [("x", .num 7)]) (.str "d1")) =
      [{ id := .str "a", command := .str "cmd", data := .obj [("x", .num 7)],
         delivery := .str "d1" }] :=
  ⟨⟨Or.inr ⟨"a", rfl, by decide⟩, Or.inr ⟨"cmd", rfl, by decide⟩,
    Or.inr ⟨"d1", rfl, by decide⟩, Or.inr (by decide)⟩,
   c2_roundtrip_amended (.str "a") (.str "cmd") (.obj [("x", .num 7)]) (.str "d1")
     (Or.inr ⟨"a", rfl, by decide⟩) (Or.inr ⟨"cmd", rfl, by decide⟩)
     (Or.inr ⟨"d1", rfl, by decide⟩) (Or.inr (by decide)) (by decide) (by decide)⟩

/-- C7 (counterexample): the claim that `delivery` is coerced to a string
fails.  `prepareMsg` passes its fourth argument through unchanged: with
delivery `42` the emitted frame carries the number 42, not the string
`"42"`. -/
theorem c7_delivery_not_coerced :
    jsonParse (prepareMsg4 .null .null .null (.num 42)) =
      some (.obj [("id", .null), ("command", .null), ("data", .null),
        ("delivery", .num 42)]) ∧
    Json.num 42 ≠ Json.str (jsToString (.num 42)) :=
  ⟨by decide, by decide⟩

/-- C7 (amended): in every arity of `prepareMsg`, `id` and `command` are
coerced to strings when non-null, while `data` and `delivery` are carried
exactly as passed: decoding the emitted bytes recovers a frame whose `id`
and `command` are the string coercions and whose `data` and `delivery` are
the original values.  The smaller arities agree with the four-argument
form with the missing fields null. -/
theorem c7_prepareMsg_field_coercions :
    (∀ id command data delivery : Json,
      jsonParse (prepareMsg4 id command data delivery) =
        some (.obj [("id", toStringOrNull id), ("command", toStringOrNull command),
          ("data", data), ("delivery", delivery)])) ∧
    (∀ id command data : Json, prepareMsg3 id command data = prepareMsg4 id command data .null) ∧
    (∀ command data : Json, prepareMsg2 command data = prepareMsg4 .null command data .null) ∧
    (∀ data : Json, prepareMsg1 data = prepareMsg4 .null .null data .null) := by
  refine ⟨fun id c d dl => jsonParse_stringify _, fun _ _ _ => rfl, ?_, ?_⟩
  · intro c d
    unfold prepareMsg2 prepareMsg4
    rw [toStringOrNull_null]
  · intro d
    unfold prepareMsg1 prepareMsg4
    rw [toStringOrNull_null]

/-! Helper lemmas on the association-list registries. -/

theorem alookup_aset (l : List (String × α)) (k : String) (v : α) :
    alookup (aset l k v) k = some v := by
  induction l with
  | nil => simp [aset, alookup, List.find?]
  | cons kv t ih =>
    obtain ⟨k0, v0⟩ := kv
    unfold aset
    by_cases hk : k0 = k
    · subst hk
      simp [alookup, List.find?]
    · rw [if_neg hk]
      unfold alookup at ih ⊢
      simp only [List.find?]
      rw [show (decide (k0 = k)) = false by simp [hk]]
      exact ih

theorem sendQueueEntry_processed (s : QueueState) :
    (sendQueueEntry s).1.processed = s.processed := by
  unfold sendQueueEntry
  split_ifs <;> rfl

/-! Scenario for the broadcast-relay claim: a server with two registered
clients, `alice` (unique socket id 1) and `bob` (unique socket id 2), and
the rendezvous envelope the client class sends for
`broadcast("hello", "x")` initiated by `alice`. -/

def c1Server : IpcServer :=
  { name_registry := [("alice", "u-alice"), ("bob", "u-bob")],
    uuid_registry :=
      [("u-alice", { name := some "alice", socket := some ⟨1, true⟩ }),
       ("u-bob", { name := some "bob", socket := some ⟨2, true⟩ })],
    delivery_registry := [], command_handlers := [] }

def c1Envelope : String :=
  prepareMsg3 (.str "alice") (.str "broadcast")
    (.str (prepareMsg2 (.str "hello") (.str "x")))

set_option maxRecDepth 16384 in
/-- C1: the broadcast exclusion fails in the code.  Processing the relay
envelope that client `alice` sends for `broadcast("hello", "x")`, the
server writes the inner frame to BOTH unique sockets — socket 1, which is
the originator’s own — because the `COMMAND_BROADCAST` arm of
`$onServerBcastData` calls `this.broadcast(cmd, data)` without the third
`initiator_client` argument, so the skip in `IpcServer#broadcast` never
fires.  Had the relay passed the originator’s name (as the method’s own
parameter is documented), only socket 2 would have been written, as the
last conjunct shows. -/
theorem c1_broadcast_reaches_originator :
    (onServerBcastData c1Server "u-x" 9 c1Envelope).map (fun r => r.2.1) =
      .ok [(1, prepareMsg2 (.str "hello") (.str "x")),
           (2, prepareMsg2 (.str "hello") (.str "x"))] ∧
    alookup c1Server.name_registry "alice" = some "u-alice" ∧
    (alookup c1Server.uuid_registry "u-alice").map (fun r => r.socket) =
      some (some ⟨1, true⟩) ∧
    (IpcServer.broadcast c1Server (.str "hello") (.str "x") (some "alice")).2 =
      [(2, prepareMsg2 (.str "hello") (.str "x"))] :=
  ⟨rfl, rfl, rfl, rfl⟩

/-! Scenario for the delivery-correlation counterexample: callee `bob`
answers command `q` with the number `0`; the reply travels back through
the server to caller `alice`, whose pending delivery `d1` completes — but
with `null`, not `0`, because `parseMsg` nulls the falsy `data` field at
each hop. -/

def c3Callee : IpcClient :=
  { client_name := "bob", command_handlers := [("q", fun _ => some (.num 0))] }

def c3ReplyBytes : String :=
  (onClientUniqueData c3Callee "u-bob" "bob"
    (prepareMsg4 .null (.str "q") .null (.str "d1"))).1.queue.headD ""

def c3Server : IpcServer :=
  { name_registry := [("alice", "u-alice")],
    uuid_registry := [("u-alice", { socket := some ⟨7, true⟩ })],
    delivery_registry := [("d1", "alice")], command_handlers := [] }

def c3Caller : IpcClient :=
  { client_name := "alice", deliveries := [("d1", .pending)] }

/-- C3 (counterexample): the callee’s handler returns the number `0`, yet
the caller’s delivery completes with `null`: the completion is not
“exactly the value the callee’s handler returned”. -/
theorem c3_falsy_return_counterexample :
    (onClientUniqueData c3Caller "u-alice" "alice"
        ((onServerUniqueData c3Server "u-bob" "bob" c3ReplyBytes).2.headD (0, "")).2).2 =
      [("d1", Json.null)] ∧ Json.null ≠ Json.num 0 :=
  ⟨rfl, by decide⟩

/-- The frame a delivery reply parses to on the receiving side. -/
def deliveryFrame (ret : Json) (d : String) : Frame :=
  { id := .null, command := .str "delivery", data := falsyToNull ret, delivery := .str d }

/-- C3 (amended): a delivery frame for a pending id `d` completes the
promise exactly once, with the codec normalization `falsyToNull` applied
to the value the wire carried; the slot is blanked, and processing the
same frame again completes nothing (provided the frame’s bytes survive
the CR/LF strip and the `}{`-splice). -/
theorem c3_delivery_correlation (cst : IpcClient) (uuid cname d : String) (ret : Json)
    (hpend : alookup cst.deliveries d = some .pending)
    (hd : d ≠ "")
    (hstrip : stripCRLF (prepareMsg4 .null (.str "delivery") ret (.str d)).data =
      (prepareMsg4 .null (.str "delivery") ret (.str d)).data)
    (hsplice : splice (prepareMsg4 .null (.str "delivery") ret (.str d)).data =
      (prepareMsg4 .null (.str "delivery") ret (.str d)).data) :
    (onClientUniqueData cst uuid cname
        (prepareMsg4 .null (.str "delivery") ret (.str d))).2 = [(d, falsyToNull ret)] ∧
    alookup (onClientUniqueData cst uuid cname
        (prepareMsg4 .null (.str "delivery") ret (.str d))).1.deliveries d = some .used ∧
    (onClientUniqueData (onClientUniqueData cst uuid cname
        (prepareMsg4 .null (.str "delivery") ret (.str d))).1 uuid cname
        (prepareMsg4 .null (.str "delivery") ret (.str d))).2 = [] := by
  have hbytes : parseMsg (prepareMsg4 .null (.str "delivery") ret (.str d)) =
      [deliveryFrame ret d] := by
    unfold deliveryFrame
    have hobj : prepareMsg4 .null (.str "delivery") ret (.str d) =
        Json.stringify (.obj [("id", toStringOrNull .null),
          ("command", toStringOrNull (.str "delivery")), ("data", ret),
          ("delivery", .str d)]) := rfl
    rw [hobj] at hstrip hsplice ⊢
    rw [parseMsg_stringify_frame _ hstrip hsplice]
    rw [toStringOrNull_null, toStringOrNull_str, normalizeEntry_frame]
    rw [nullOrNonemptyStr_falsy (.str d) (Or.inr ⟨d, rfl, hd⟩)]
    rfl
  have h1 : onClientUniqueMessage cst uuid cname (deliveryFrame ret d) =
      ({ cst with deliveries := aset cst.deliveries d .used }, [(d, falsyToNull ret)]) := by
    unfold onClientUniqueMessage deliveryFrame
    simp only [jsToString_str]
    rw [hpend]
    simp only []
    rw [if_pos ⟨trivial, fun hc => Json.noConfusion hc⟩]
  have h2 : (onClientUniqueMessage { cst with deliveries := aset cst.deliveries d .used }
      uuid cname (deliveryFrame ret d)).2 = [] := by
    unfold onClientUniqueMessage deliveryFrame
    simp only [jsToString_str]
    rw [alookup_aset]
    simp only []
    unfold clientUniqueFall
    rw [if_pos (fun hc => Json.noConfusion hc)]
  have hmain : onClientUniqueData cst uuid cname
      (prepareMsg4 .null (.str "delivery") ret (.str d)) =
      ({ cst with deliveries := aset cst.deliveries d .used }, [(d, falsyToNull ret)]) := by
    unfold onClientUniqueData
    rw [hbytes]
    simp only [List.foldl]
    rw [h1]
    rfl
  refine ⟨by rw [hmain], ?_, ?_⟩
  · rw [hmain]
    exact alookup_aset cst.deliveries d .used
  · rw [hmain]
    unfold onClientUniqueData
    rw [hbytes]
    simp only [List.foldl]
    rw [List.nil_append]
    exact h2

theorem c3_delivery_correlation_witness :
    (alookup c3Caller.deliveries "d1" = some .pending ∧ "d1" ≠ "") ∧
    (onClientUniqueData c3Caller "u-alice" "alice"
        (prepareMsg4 .null (.str "delivery") (.str "ok") (.str "d1"))).2 =
      [("d1", falsyToNull (.str "ok"))] :=
  ⟨⟨rfl, by decide⟩,
   (c3_delivery_correlation c3Caller "u-alice" "alice" "d1" (.str "ok") rfl (by decide)
     (by decide) (by decide)).1⟩

/-- C4: a handshake frame whose client name is already registered (a
truthy entry in the name registry) is answered on the rendezvous socket
with the frame `{id: name, command: "error", data: 201}`, and nothing else
changes: the returned server state is the incoming one (all three
registries untouched) and no unique listener is spawned. -/
theorem c4_handshake_name_taken (st : IpcServer) (uuid : String) (bcastSid : Nat)
    (i name dl : Json)
    (h : truthyLookup st.name_registry (jsToString name) = true) :
    onServerBcastMessage st uuid bcastSid
        { id := i, command := .str "handshake", data := name, delivery := dl } =
      .ok (st, [(bcastSid, prepareMsg3 name (.str "error") (.num 201))], []) := by
  unfold onServerBcastMessage
  rw [if_pos rfl]
  simp only []
  rw [if_pos h]

def c4Server : IpcServer :=
  { name_registry := [("bob", "u1")], uuid_registry := [], delivery_registry := [],
    command_handlers := [] }

theorem c4_handshake_name_taken_witness :
    truthyLookup c4Server.name_registry (jsToString (.str "bob")) = true ∧
    onServerBcastMessage c4Server "u2" 5
        { id := .null, command := .str "handshake", data := .str "bob", delivery := .null } =
      .ok (c4Server, [(5, prepareMsg3 (.str "bob") (.str "error") (.num 201))], []) :=
  ⟨by decide, c4_handshake_name_taken c4Server "u2" 5 .null (.str "bob") .null (by decide)⟩

/-- C5: registering a handler under a reserved command name, or under a
name the registry already holds, throws and leaves the registry unchanged
— both for the single registration (`addCommandHandler`) and for a
collection whose offending entry comes first (`addHandlers`). -/
theorem c5_reserved_or_duplicate_rejected (reg : List (String × Handler)) (c : String)
    (h : Handler) (rest : List (String × Handler))
    (hbad : c ∈ restrictedCommands ∨ (alookup reg c).isSome = true) :
    (addCommandHandler reg c h).1 = reg ∧ (addCommandHandler reg c h).2.isSome = true ∧
    (addHandlers reg ((c, h) :: rest)).1 = reg ∧
    (addHandlers reg ((c, h) :: rest)).2.isSome = true := by
  have hmain : (addCommandHandler reg c h).1 = reg ∧
      (addCommandHandler reg c h).2.isSome = true := by
    unfold addCommandHandler
    by_cases hr : c ∈ restrictedCommands
    · rw [if_pos hr]
      exact ⟨rfl, rfl⟩
    · rw [if_neg hr]
      rcases hbad with hb | hb
      · exact absurd hb hr
      · rw [if_pos hb]
        exact ⟨rfl, rfl⟩
  obtain ⟨e, he⟩ : ∃ e, addCommandHandler reg c h = (reg, some e) := by
    obtain ⟨h1, h2⟩ := hmain
    rcases hs : (addCommandHandler reg c h).2 with _ | e
    · rw [hs] at h2
      cases h2
    · exact ⟨e, Prod.ext h1 hs⟩
  refine ⟨hmain.1, hmain.2, ?_, ?_⟩
  · unfold addHandlers
    rw [he]
  · unfold addHandlers
    rw [he]
    rfl

theorem c5_reserved_or_duplicate_rejected_witness :
    ("emit" ∈ restrictedCommands ∨
      (alookup ([] : List (String × Handler)) "emit").isSome = true) ∧
    (addCommandHandler ([] : List (String × Handler)) "emit" (fun _ => none)).1 = [] ∧
    (addCommandHandler ([] : List (String × Handler)) "emit" (fun _ => none)).2.isSome = true ∧
    (addHandlers ([] : List (String × Handler)) [("emit", fun _ => none)]).1 = [] ∧
    (addHandlers ([] : List (String × Handler)) [("emit", fun _ => none)]).2.isSome = true :=
  ⟨Or.inl (by decide),
   c5_reserved_or_duplicate_rejected [] "emit" (fun _ => none) [] (Or.inl (by decide))⟩

theorem sendQueueEntry_writes_of_disconnected (s : QueueState)
    (h : s.is_connected = false) : (sendQueueEntry s).2 = [] := by
  unfold sendQueueEntry
  rw [if_neg (fun hc => by rw [h] at hc; exact absurd hc.1 (by simp))]

/-- C6: every reachable queue state drains in strict FIFO order — the
acknowledged entries followed by the current queue are exactly the entries
ever enqueued, in order, with at most one write in flight and none unless
the draining flag is up; each acknowledgment fires exactly the completion
signals of the entries it shifts (in that order, hence in enqueue order);
and no write is issued while the client is disconnected. -/
theorem c6_queue_fifo_drain :
    (∀ s, QReachable s → s.processed ++ s.queue = s.enqueued ∧ s.inflight ≤ 1 ∧
      (s.emptying = false → s.inflight = 0)) ∧
    (∀ s, ∃ done, (ackWrite s).1.processed = s.processed ++ done ∧
      (ackWrite s).2.1 = done.filterMap Prod.snd) ∧
    (∀ s, s.is_connected = false →
      (sendQueueEntry s).2 = [] ∧ (handleQueue s).2 = [] ∧ (ackWrite s).2.2 = []) := by
  refine ⟨?_, ?_, ?_⟩
  · intro s hs
    obtain ⟨h1, h2, h3, _⟩ := qinv_reachable s hs
    exact ⟨h1, h2, h3⟩
  · intro s
    unfold ackWrite
    by_cases hz : s.inflight = 0
    · rw [if_pos hz]
      exact ⟨[], by simp, rfl⟩
    · rw [if_neg hz]
      rcases hq : s.queue with _ | ⟨e, rest⟩
      · exact ⟨[], by simp, rfl⟩
      · simp only []
        by_cases hr : rest = []
        · rw [if_pos hr]
          refine ⟨[e], rfl, ?_⟩
          rcases e with ⟨bytes, _ | sig⟩ <;> rfl
        · rw [if_neg hr]
          refine ⟨[e], ?_, ?_⟩
          · rw [sendQueueEntry_processed]
          · rcases e with ⟨bytes, _ | sig⟩ <;> rfl
  · intro s hcon
    have hnc : ¬(s.is_connected = true ∧ s.queue ≠ []) := by
      rintro ⟨hc, -⟩
      rw [hcon] at hc
      cases hc
    refine ⟨sendQueueEntry_writes_of_disconnected s hcon, ?_, ?_⟩
    · unfold handleQueue
      rw [if_neg (fun hc => hnc ⟨hc.1, hc.2.1⟩)]
    · unfold ackWrite
      by_cases hz : s.inflight = 0
      · rw [if_pos hz]
      · rw [if_neg hz]
        rcases hq : s.queue with _ | ⟨e, rest⟩
        · rfl
        · simp only []
          by_cases hr : rest = []
          · rw [if_pos hr]
          · rw [if_neg hr]
            exact sendQueueEntry_writes_of_disconnected _ hcon

theorem c6_queue_fifo_drain_witness :
    QReachable initQueueState ∧
    (initQueueState.processed ++ initQueueState.queue = initQueueState.enqueued ∧
      initQueueState.inflight ≤ 1 ∧
      (initQueueState.emptying = false → initQueueState.inflight = 0)) :=
  ⟨QReachable.init, c6_queue_fifo_drain.1 initQueueState QReachable.init⟩

/-- C9: `IpcServer#emit` is a silent no-op whenever the named client is
missing from the name registry, or its record lacks a socket, or the
socket is not writable: no write is performed and the state (all three
registries) is returned unchanged. -/
theorem c9_emit_silent_noop (st : IpcServer) (cn : String) (cmd data dl : Json)
    (h : alookup st.name_registry cn = none ∨
      ∃ u, alookup st.name_registry cn = some u ∧
        (alookup st.uuid_registry u = none ∨
          ∃ r, alookup st.uuid_registry u = some r ∧
            (r.socket = none ∨ ∃ sk, r.socket = some sk ∧ sk.writable = false))) :
    IpcServer.emit st cn cmd data dl = (st, []) := by
  unfold IpcServer.emit
  rcases h with h1 | ⟨u, h1, h2⟩
  · rw [h1]
  · rw [h1]
    simp only []
    rcases h2 with h2 | ⟨r, h2, h3⟩
    · rw [h2]
    · rw [h2]
      simp only []
      rcases h3 with h3 | ⟨sk, h3, h4⟩
      · rw [h3]
      · rw [h3]
        simp only []
        rw [if_neg (fun hw => by rw [h4] at hw; cases hw)]

def c9Server : IpcServer :=
  { name_registry := [], uuid_registry := [], delivery_registry := [],
    command_handlers := [] }

theorem c9_emit_silent_noop_witness :
    alookup c9Server.name_registry "ghost" = none ∧
    IpcServer.emit c9Server "ghost" (.str "c") .null .null = (c9Server, []) :=
  ⟨rfl, c9_emit_silent_noop c9Server "ghost" (.str "c") .null .null (Or.inl rfl)⟩
